import Mathlib

/-!
Verification of the exchange-rate worker (`apps/worker/fetchers/{cbr,nbs,ecb}.py`).

Shallow embedding conventions:
* Python `date` objects are day ordinals (`Int`, proleptic Gregorian day count
  with epoch 1970-01-01, as produced by `daysFromCivil`); ordering and
  `+ timedelta(days=1)` become integer ordering and `+ 1`.
* Python `Decimal` values are rationals (`Rat`).  `Decimal.quantize` to nine
  decimal places with the default `ROUND_HALF_EVEN` context is `quantize9`.
  Python performs the division at 28 significant digits before quantizing; the
  model rounds the exact quotient once, which agrees except on double-rounding
  boundaries that none of the verified statements touch.
* Fallible Python code (raising `ValueError`) is `Except String`.
* The Postgres table `exchange_rates` is a list of rows; `ON CONFLICT DO
  NOTHING` insertion is an append guarded by a key lookup.
-/

/-! ## Banker's rounding (`Decimal.quantize` with nine fractional digits) -/

/-- Round a rational to the nearest integer, ties to even
(Python `Decimal` default `ROUND_HALF_EVEN`). -/
def rhe (q : ℚ) : ℤ :=
  let f := ⌊q⌋
  let r := q - f
  if r < 1/2 then f
  else if 1/2 < r then f + 1
  else if f % 2 = 0 then f else f + 1

/-- Model of `Decimal.quantize(Decimal("0.000000001"))`: round half-even
to an integer multiple of `10⁻⁹`. -/
def quantize9 (q : ℚ) : ℚ := ((rhe (q * 10^9) : ℚ)) / 10^9

/-- A rational representable with exactly nine decimal fraction digits. -/
def is9dp (q : ℚ) : Prop := ∃ n : ℤ, q = (n : ℚ) / 10^9

theorem is9dp_quantize9 (q : ℚ) : is9dp (quantize9 q) := ⟨rhe (q * 10^9), rfl⟩

/-- `rhe` is the half-even rounding: distance to the argument is at most a
half, and exactly a half only at an even integer. -/
theorem rhe_char (q : ℚ) :
    |(rhe q : ℚ) - q| ≤ 1/2 ∧ (|(rhe q : ℚ) - q| = 1/2 → rhe q % 2 = 0) := by
  have hf : (⌊q⌋ : ℚ) ≤ q := Int.floor_le q
  have hf2 : q < ⌊q⌋ + 1 := Int.lt_floor_add_one q
  unfold rhe
  by_cases h1 : q - ⌊q⌋ < 1/2
  · simp only [if_pos h1]
    constructor
    · rw [abs_sub_comm, abs_of_nonneg (by linarith)]; linarith
    · rw [abs_sub_comm, abs_of_nonneg (by linarith)]
      intro h; linarith
  · by_cases h2 : 1/2 < q - ⌊q⌋
    · simp only [if_neg h1, if_pos h2]
      constructor
      · rw [abs_of_nonneg (by push_cast; linarith)]
        push_cast; linarith
      · rw [abs_of_nonneg (by push_cast; linarith)]
        intro h; push_cast at h; linarith
    · have hr : q - ⌊q⌋ = 1/2 := le_antisymm (not_lt.mp h2) (not_lt.mp h1)
      simp only [if_neg h1, if_neg h2]
      by_cases h3 : ⌊q⌋ % 2 = 0
      · simp only [if_pos h3]
        refine ⟨by rw [abs_sub_comm, abs_of_nonneg (by linarith)]; linarith, fun _ => h3⟩
      · simp only [if_neg h3]
        constructor
        · rw [abs_of_nonneg (by push_cast; linarith)]
          push_cast; linarith
        · intro _; omega

theorem rhe_nonneg {q : ℚ} (h : 0 ≤ q) : 0 ≤ rhe q := by
  have hc := (rhe_char q).1
  have : (rhe q : ℚ) ≥ q - 1/2 := by
    have := abs_le.mp hc
    linarith [this.1, this.2]
  have h3 : (-1 : ℚ) < (rhe q : ℚ) := by linarith
  have h4 : (-1 : ℤ) < rhe q := by exact_mod_cast h3
  omega

theorem rhe_pos {q : ℚ} (h : 1/2 < q) : 0 < rhe q := by
  have hc := (rhe_char q).1
  have h2 := (abs_le.mp hc).1
  have : (0 : ℚ) < (rhe q : ℚ) := by linarith
  exact_mod_cast this

theorem quantize9_nonneg {q : ℚ} (h : 0 ≤ q) : 0 ≤ quantize9 q := by
  unfold quantize9
  have : 0 ≤ rhe (q * 10^9) := rhe_nonneg (by positivity)
  positivity

theorem quantize9_pos {q : ℚ} (h : 1/(2 * 10^9) < q) : 0 < quantize9 q := by
  unfold quantize9
  have h1 : (1:ℚ)/2 < q * 10^9 := by
    rw [div_lt_iff (by norm_num)] at h
    linarith
  have h2 : 0 < rhe (q * 10^9) := rhe_pos h1
  have h3 : (0 : ℚ) < (rhe (q * 10^9) : ℚ) := by exact_mod_cast h2
  positivity

/-- Rounding is determined by any integer strictly within a half. -/
theorem rhe_eq_of_close {q : ℚ} {n : ℤ} (h : |(n : ℚ) - q| < 1/2) : rhe q = n := by
  have hc := (rhe_char q).1
  have h1 := abs_le.mp hc
  have h2 := abs_lt.mp h
  have h3 : |(rhe q : ℚ) - (n : ℚ)| < 1 := by
    rw [abs_lt]
    constructor <;> linarith
  have h4 : |((rhe q - n : ℤ) : ℚ)| < 1 := by push_cast; exact h3
  have h5 : ((|rhe q - n| : ℤ) : ℚ) < 1 := by rw [Int.cast_abs]; exact h4
  have h6 : |rhe q - n| < 1 := by exact_mod_cast h5
  have h7 : rhe q - n = 0 := Int.abs_lt_one_iff.mp h6
  omega

/-- `quantize9 q` differs from `q` by at most half of `10⁻⁹`, with ties
resolved to an even multiple: the unique half-even characterization used by
the specification. -/
theorem quantize9_char (q : ℚ) :
    ∃ n : ℤ, quantize9 q = (n : ℚ) / 10^9 ∧
      |(n : ℚ) / 10^9 - q| ≤ 1/(2 * 10^9) ∧
      (|(n : ℚ) / 10^9 - q| = 1/(2 * 10^9) → n % 2 = 0) := by
  refine ⟨rhe (q * 10^9), rfl, ?_, ?_⟩
  · have hc := (rhe_char (q * 10^9)).1
    have key : |(rhe (q * 10^9) : ℚ) / 10^9 - q| = |(rhe (q * 10^9) : ℚ) - q * 10^9| / 10^9 := by
      rw [← abs_of_pos (show (0:ℚ) < 10^9 by norm_num), ← abs_div]
      congr 1
      field_simp
      ring
    rw [key]
    rw [div_le_div_iff (by norm_num) (by norm_num)]
    calc |(rhe (q * 10^9) : ℚ) - q * 10^9| * (2 * 10^9)
        ≤ (1/2) * (2 * 10^9) := by
          apply mul_le_mul_of_nonneg_right hc (by norm_num)
      _ = 1 * 10^9 := by ring
  · intro h
    apply (rhe_char (q * 10^9)).2
    have key : |(rhe (q * 10^9) : ℚ) / 10^9 - q| = |(rhe (q * 10^9) : ℚ) - q * 10^9| / 10^9 := by
      rw [← abs_of_pos (show (0:ℚ) < 10^9 by norm_num), ← abs_div]
      congr 1
      field_simp
      ring
    rw [key] at h
    have : |(rhe (q * 10^9) : ℚ) - q * 10^9| = 1/(2 * 10^9) * 10^9 := by
      field_simp at h ⊢
      linarith
    rw [this]; norm_num

/-! ## Python numeric literal parsing (`int(...)`, `Decimal(...)`) -/

/-- Value of a digit string (most significant first). -/
def digitsVal (cs : List Char) : Nat := cs.foldl (fun a c => a * 10 + (c.toNat - 48)) 0

def allDigits (cs : List Char) : Bool := cs.all (·.isDigit)

/-- Python `str.strip()` on a character list. -/
def trimChars (cs : List Char) : List Char :=
  ((cs.dropWhile (·.isWhitespace)).reverse.dropWhile (·.isWhitespace)).reverse

/-- Python `str.replace(",", ".")` on a character list. -/
def replaceCommaDot (cs : List Char) : List Char :=
  cs.map fun c => if c == ',' then '.' else c

/-- Model of Python `int(s)` restricted to an optional sign followed by
digits (surrounding-whitespace tolerance is applied by callers via
`trimChars`). -/
def pyIntChars (cs : List Char) : Option Int :=
  match cs with
  | '-' :: rest =>
      if rest ≠ [] && allDigits rest then some (-(digitsVal rest : Int)) else none
  | '+' :: rest =>
      if rest ≠ [] && allDigits rest then some ((digitsVal rest : Int)) else none
  | rest =>
      if rest ≠ [] && allDigits rest then some ((digitsVal rest : Int)) else none

def pyInt (s : String) : Option Int := pyIntChars s.toList

/-- Value of an optional-sign decimal literal `intpart[.fracpart]`. -/
def decParts (sign : ℚ) (body : List Char) : Option ℚ :=
  match body.splitOn '.' with
  | [ip] =>
      if ip ≠ [] && allDigits ip then some (sign * (digitsVal ip : ℚ)) else none
  | [ip, fp] =>
      if (ip ≠ [] || fp ≠ []) && allDigits ip && allDigits fp then
        some (sign * ((digitsVal ip : ℚ) + (digitsVal fp : ℚ) / 10 ^ fp.length))
      else none
  | _ => none

/-- Model of Python `Decimal(s)` restricted to finite plain-form literals
(optional sign, digits, optional fraction).  Exponent notation and the
special values that `Decimal` also accepts are outside the model; every
statement below only ever evaluates this on plain literals. -/
def pyDecimalChars (cs : List Char) : Option ℚ :=
  match cs with
  | '-' :: rest => decParts (-1) rest
  | '+' :: rest => decParts 1 rest
  | rest => decParts 1 rest

def pyDecimal (s : String) : Option ℚ := pyDecimalChars s.toList

/-! ## Calendar arithmetic (Python `datetime.date` as a day ordinal) -/

abbrev Date := Int

def isLeapYear (y : Int) : Bool := y % 4 == 0 && (y % 100 != 0 || y % 400 == 0)

def daysInMonth (y : Int) (m : Int) : Int :=
  if m = 2 then (if isLeapYear y then 29 else 28)
  else if m = 4 || m = 6 || m = 9 || m = 11 then 30
  else 31

/-- Day ordinal of a civil date (epoch 1970-01-01), valid for year ≥ 1. -/
def daysFromCivil (y m d : Int) : Int :=
  let y2 := if m ≤ 2 then y - 1 else y
  let era := y2 / 400
  let yoe := y2 - era * 400
  let mp := (m + 9) % 12
  let doy := (153 * mp + 2) / 5 + d - 1
  let doe := yoe * 365 + yoe / 4 - yoe / 100 + doy
  era * 146097 + doe - 719468

/-- Inverse of `daysFromCivil`: `(year, month, day)` of a day ordinal. -/
def civilFromDays (z : Int) : Int × Int × Int :=
  let z2 := z + 719468
  let era := (if 0 ≤ z2 then z2 else z2 - 146096) / 146097
  let doe := z2 - era * 146097
  let yoe := (doe - doe / 1460 + doe / 2920 - doe / 146096) / 365
  let y := yoe + era * 400
  let doy := doe - (365 * yoe + yoe / 4 - yoe / 100)
  let mp := (5 * doy + 2) / 153
  let d := doy - (153 * mp + 2) / 5 + 1
  let m := if mp < 10 then mp + 3 else mp - 9
  (if m ≤ 2 then y + 1 else y, m, d)

/-- Valid Python `date(y, m, d)` arguments. -/
def validYMD (y m d : Int) : Bool :=
  1 ≤ y && y ≤ 9999 && 1 ≤ m && m ≤ 12 && 1 ≤ d && d ≤ daysInMonth y m

/-- Model of `date.fromisoformat` on the `YYYY-MM-DD` form. -/
def isoDate? (s : String) : Option Date :=
  match s.toList with
  | [y1, y2, y3, y4, '-', m1, m2, '-', d1, d2] =>
      if allDigits [y1, y2, y3, y4] && allDigits [m1, m2] && allDigits [d1, d2] then
        let y : Int := digitsVal [y1, y2, y3, y4]
        let m : Int := digitsVal [m1, m2]
        let d : Int := digitsVal [d1, d2]
        if validYMD y m d then some (daysFromCivil y m d) else none
      else none
  | _ => none

def pad2 (n : Int) : String := if n < 10 then "0" ++ toString n else toString n

def pad4 (n : Int) : String :=
  if n < 10 then "000" ++ toString n
  else if n < 100 then "00" ++ toString n
  else if n < 1000 then "0" ++ toString n
  else toString n

/-- Model of Python `str(date)` (ISO format). -/
def dateToIso (z : Date) : String :=
  let c := civilFromDays z
  pad4 c.1 ++ "-" ++ pad2 c.2.1 ++ "-" ++ pad2 c.2.2

/-! ## List helpers (Python `sorted`, fold-based min/max) -/

def insertSorted (le : α → α → Bool) (x : α) : List α → List α
  | [] => [x]
  | y :: ys => if le x y then x :: y :: ys else y :: insertSorted le x ys

/-- Insertion sort, used to model Python `sorted(...)`. -/
def sortBy (le : α → α → Bool) (l : List α) : List α := l.foldr (insertSorted le) []

theorem mem_insertSorted (le : α → α → Bool) (x : α) (l : List α) (a : α) :
    a ∈ insertSorted le x l ↔ a = x ∨ a ∈ l := by
  induction l with
  | nil => simp [insertSorted]
  | cons y ys ih =>
      simp only [insertSorted]
      by_cases h : le x y
      · simp [h]
      · simp only [if_neg h, List.mem_cons, ih]
        tauto

theorem mem_sortBy (le : α → α → Bool) (l : List α) (a : α) :
    a ∈ sortBy le l ↔ a ∈ l := by
  induction l with
  | nil => simp [sortBy]
  | cons y ys ih =>
      simp only [sortBy, List.foldr_cons, mem_insertSorted, List.mem_cons]
      rw [show List.foldr (insertSorted le) [] ys = sortBy le ys from rfl] at *
      tauto

/-- Lexicographic comparison of character lists by code point. -/
def listLtChars : List Char → List Char → Bool
  | [], [] => false
  | [], _ :: _ => true
  | _ :: _, [] => false
  | a :: as, b :: bs =>
      if a.toNat < b.toNat then true
      else if b.toNat < a.toNat then false
      else listLtChars as bs

/-- Python string `<`: lexicographic by code point. -/
def strLt (a b : String) : Bool := listLtChars a.toList b.toList

/-- Python string comparison (`a <= b`) as a Bool. -/
def strLe (a b : String) : Bool := !(strLt b a)

theorem foldl_min_mem_le (xs : List Int) (x : Int) : List.foldl min x xs ≤ x := by
  induction xs generalizing x with
  | nil => simp
  | cons y ys ih => exact le_trans (ih (min x y)) (min_le_left x y)

theorem foldl_max_le_mem (xs : List Int) (x : Int) : x ≤ List.foldl max x xs := by
  induction xs generalizing x with
  | nil => simp
  | cons y ys ih => exact le_trans (le_max_left x y) (ih (max x y))

theorem foldl_min_le (xs : List Int) (x : Int) (a : Int) (h : a ∈ x :: xs) :
    List.foldl min x xs ≤ a := by
  induction xs generalizing x with
  | nil => simp at h; simp [h]
  | cons y ys ih =>
      simp only [List.foldl_cons]
      rcases List.mem_cons.mp h with h1 | h1
      · subst h1
        exact le_trans (foldl_min_mem_le ys (min a y)) (min_le_left a y)
      · rcases List.mem_cons.mp h1 with h2 | h2
        · subst h2
          exact le_trans (foldl_min_mem_le ys (min x a)) (min_le_right x a)
        · exact ih (min x y) (List.mem_cons_of_mem _ h2)

theorem foldl_min_mem (xs : List Int) (x : Int) : List.foldl min x xs ∈ x :: xs := by
  induction xs generalizing x with
  | nil => simp
  | cons y ys ih =>
      simp only [List.foldl_cons]
      rcases List.mem_cons.mp (ih (min x y)) with h | h
      · rcases min_choice x y with h2 | h2 <;> rw [h, h2] <;> simp
      · simp [List.mem_cons_of_mem, h]

theorem foldl_max_le (xs : List Int) (x : Int) (a : Int) (h : a ∈ x :: xs) :
    a ≤ List.foldl max x xs := by
  induction xs generalizing x with
  | nil => simp at h; simp [h]
  | cons y ys ih =>
      simp only [List.foldl_cons]
      rcases List.mem_cons.mp h with h1 | h1
      · subst h1
        exact le_trans (le_max_left a y) (foldl_max_le_mem ys (max a y))
      · rcases List.mem_cons.mp h1 with h2 | h2
        · subst h2
          exact le_trans (le_max_right x a) (foldl_max_le_mem ys (max x a))
        · exact ih (max x y) (List.mem_cons_of_mem _ h2)

theorem foldl_max_mem (xs : List Int) (x : Int) : List.foldl max x xs ∈ x :: xs := by
  induction xs generalizing x with
  | nil => simp
  | cons y ys ih =>
      simp only [List.foldl_cons]
      rcases List.mem_cons.mp (ih (max x y)) with h | h
      · rcases max_choice x y with h2 | h2 <;> rw [h, h2] <;> simp
      · simp [List.mem_cons_of_mem, h]

/-! ## Canonical rows and the Postgres-backed operations

`cbr.py` and `nbs.py` define the same `ExchangeRateRow` / `DateRange` shapes
and byte-identical `filter_new_rows` / `insert_rows` / window logic; the
embedding defines them once.  `rate_date` is carried as a day ordinal: in the
source it is the ISO string `str(record["rate_date"])` and is read back with
`date.fromisoformat`, a bijection between valid dates and their strings. -/

structure ExchangeRateRow where
  base_currency : String
  quote_currency : String
  rate_date : Date
  rate : ℚ
deriving DecidableEq, Repr

structure DateRange where
  min_date : Date
  max_date : Date
deriving DecidableEq, Repr

abbrev Store := List ExchangeRateRow

def rowKey (r : ExchangeRateRow) : String × String × Date :=
  (r.base_currency, r.quote_currency, r.rate_date)

/-- Dates of the stored rows for one base currency quoted in USD
(the `WHERE` clause of the coverage query). -/
def covDates (store : Store) (ccy : String) : List Date :=
  (store.filter fun r =>
    r.base_currency == ccy && r.quote_currency == "USD").map (·.rate_date)

/-- `get_rate_date_range`: `SELECT MIN(rate_date), MAX(rate_date) ... WHERE
base_currency = ccy AND quote_currency = 'USD'`, `None` when no rows. -/
def get_rate_date_range (store : Store) (ccy : String) : Option DateRange :=
  match covDates store ccy with
  | [] => none
  | d :: ds => some ⟨List.foldl min d ds, List.foldl max d ds⟩

/-- `insert_rows`: `INSERT ... ON CONFLICT (base_currency, quote_currency,
rate_date) DO NOTHING` for each row in order; the function returns
`len(rows)`, not the number of rows the insert actually added. -/
def insert_rows (store : Store) (rows : List ExchangeRateRow) : Store × Nat :=
  (rows.foldl
    (fun s r => if s.any (fun r2 => decide (rowKey r2 = rowKey r)) then s else s ++ [r])
    store,
   rows.length)

/-- `filter_new_rows` (`cbr.py` / `nbs.py`): keep rows dated strictly before
`min_date` or strictly after `max_date`; keep everything when no coverage. -/
def filter_new_rows (all_rows : List ExchangeRateRow) (existing_range : Option DateRange) :
    List ExchangeRateRow :=
  match existing_range with
  | none => all_rows
  | some rng =>
      all_rows.filter fun r =>
        decide (r.rate_date < rng.min_date) || decide (rng.max_date < r.rate_date)

/-- The window start computed by `run` (`cbr.py` lines 214-221, `nbs.py`
lines 210-217): backfill to the demand floor when coverage starts after it,
otherwise continue after the covered maximum. -/
def planStart (existing : Option DateRange) (target_start : Date) : Date :=
  match existing with
  | some rng => if rng.min_date > target_start then target_start else rng.max_date + 1
  | none => target_start

/-- The `latest_date` reported when no records arrive: the covered maximum if
any, else `end`. -/
def emptyLatest : Option DateRange → Date → Date
  | some rng, _ => rng.max_date
  | none, endd => endd

/-- `latest_inserted = max(dates of new_rows) if new_rows else str(end)`. -/
def latestOf (new_rows : List ExchangeRateRow) (endd : Date) : Date :=
  match new_rows with
  | [] => endd
  | r :: rs => List.foldl max r.rate_date (rs.map (·.rate_date))

structure SingleResult where
  inserted : Nat
  latest_date : Date
deriving DecidableEq, Repr

/-- `run` of `cbr.py` (lines 209-246) and `nbs.py` (lines 205-242), which are
line-for-line identical up to the currency constant and the
parse-and-convert step; `fetch` abstracts the HTTP fetch composed with the
payload parser and returns the provider records for the requested window. -/
def runSingle (ccy : String) (convert : List ρ → Except String (List ExchangeRateRow))
    (store : Store) (target_start today : Date) (fetch : Date → Date → List ρ) :
    Store × Except String SingleResult :=
  if today < planStart (get_rate_date_range store ccy) target_start then
    (store, .ok ⟨0, today⟩)
  else if (fetch (planStart (get_rate_date_range store ccy) target_start) today).isEmpty then
    (store, .ok ⟨0, emptyLatest (get_rate_date_range store ccy) today⟩)
  else
    match convert (fetch (planStart (get_rate_date_range store ccy) target_start) today) with
    | .error e => (store, .error e)
    | .ok all_rows =>
        ((insert_rows store (filter_new_rows all_rows (get_rate_date_range store ccy))).1,
         .ok ⟨(insert_rows store (filter_new_rows all_rows (get_rate_date_range store ccy))).2,
              latestOf (filter_new_rows all_rows (get_rate_date_range store ccy)) today⟩)

/-! ## CBR (Bank of Russia, `cbr.py`) -/

structure CBRRecord where
  rate_date : Date
  nominal : Int
  value : ℚ
deriving DecidableEq, Repr

/-- An XML `Record` element as seen by `parse_cbr_xml`: the `Date` attribute
and the text of the `Nominal` and `Value` children, each possibly absent. -/
structure CBRRawRecord where
  date : Option String
  nominal : Option String
  value : Option String

/-- `parse_cbr_decimal`: strip, comma to point, then `Decimal(...)`. -/
def parse_cbr_decimal (raw : String) : Option ℚ :=
  pyDecimalChars (replaceCommaDot (trimChars raw.toList))

/-- `parse_cbr_date`: split a stripped `DD.MM.YYYY` string on points, three
parts each read by `int(...)`, then `date(year, month, day)`. -/
def parse_cbr_date (raw : String) : Option Date :=
  match (trimChars raw.toList).splitOn '.' with
  | [ds, ms, ys] =>
      match pyIntChars ys, pyIntChars ms, pyIntChars ds with
      | some y, some m, some d => if validYMD y m d then some (daysFromCivil y m d) else none
      | _, _, _ => none
  | _ => none

/-- Run a fallible step over a list in order, aborting at the first failure:
the shape of every record loop in the three parsers and converters. -/
def mapExcept (f : α → Except String β) : List α → Except String (List β)
  | [] => .ok []
  | a :: as =>
      match f a with
      | .error e => .error e
      | .ok b =>
          match mapExcept f as with
          | .error e => .error e
          | .ok bs => .ok (b :: bs)

theorem mapExcept_ok_iff (f : α → Except String β) :
    ∀ l : List α, (∃ bs, mapExcept f l = .ok bs) ↔ ∀ a ∈ l, ∃ b, f a = .ok b := by
  intro l
  induction l with
  | nil =>
      constructor
      · intro _ a ha; simp at ha
      · intro _; exact ⟨[], rfl⟩
  | cons a as ih =>
      constructor
      · rintro ⟨bs, h⟩ x hx
        rw [mapExcept] at h
        cases hf : f a with
        | error e => rw [hf] at h; exact absurd h (by simp)
        | ok b =>
            rw [hf] at h
            cases hm : mapExcept f as with
            | error e => rw [hm] at h; exact absurd h (by simp)
            | ok bs2 =>
                rcases List.mem_cons.mp hx with h1 | h1
                · subst h1; exact ⟨b, hf⟩
                · exact (ih.mp ⟨bs2, hm⟩) x h1
      · intro hall
        obtain ⟨b, hb⟩ := hall a (List.mem_cons_self _ _)
        obtain ⟨bs, hbs⟩ := ih.mpr fun x hx => hall x (List.mem_cons_of_mem _ hx)
        exact ⟨b :: bs, by rw [mapExcept, hb, hbs]⟩

theorem mapExcept_length (f : α → Except String β) :
    ∀ l bs, mapExcept f l = .ok bs → bs.length = l.length := by
  intro l
  induction l with
  | nil => intro bs h; cases h; rfl
  | cons a as ih =>
      intro bs h
      rw [mapExcept] at h
      cases hf : f a with
      | error e => rw [hf] at h; exact absurd h (by simp)
      | ok b =>
          rw [hf] at h
          cases hm : mapExcept f as with
          | error e => rw [hm] at h; exact absurd h (by simp)
          | ok bs2 =>
              rw [hm] at h
              cases h
              simp [ih bs2 hm]

/-- One iteration of the `parse_cbr_xml` loop: missing `Date` attribute,
missing `Nominal` or `Value` children, and unparseable date, integer or
decimal text each abort the parse. -/
def parse_cbr_record (raw : CBRRawRecord) : Except String CBRRecord :=
  match raw.date with
  | none => .error "CBR Record element missing Date attribute"
  | some ds =>
      match raw.nominal with
      | none => .error "CBR Record missing Nominal element"
      | some ns =>
          match raw.value with
          | none => .error "CBR Record missing Value element"
          | some vs =>
              match parse_cbr_date ds, pyIntChars (trimChars ns.toList), parse_cbr_decimal vs with
              | some d, some n, some v => .ok ⟨d, n, v⟩
              | _, _, _ => .error "malformed CBR record"

/-- `parse_cbr_xml`: every `Record` must carry a `Date` attribute and
`Nominal` / `Value` children with parseable text; the first malformed record
aborts the parse. -/
def parse_cbr_xml (raws : List CBRRawRecord) : Except String (List CBRRecord) :=
  mapExcept parse_cbr_record raws

/-- `convert_cbr_to_usd`: a zero `Value` raises; otherwise
`rate = (Decimal(nominal) / value).quantize(Decimal("0.000000001"))`. -/
def convert_cbr_to_usd : List CBRRecord → Except String (List ExchangeRateRow)
  | [] => .ok []
  | rec :: rest =>
      if rec.value = 0 then .error "CBR returned zero rate"
      else
        match convert_cbr_to_usd rest with
        | .error e => .error e
        | .ok rows =>
            .ok (⟨"RUB", "USD", rec.rate_date, quantize9 ((rec.nominal : ℚ) / rec.value)⟩ :: rows)

def cbr_run (store : Store) (target_start today : Date)
    (fetch : Date → Date → List CBRRecord) : Store × Except String SingleResult :=
  runSingle "RUB" convert_cbr_to_usd store target_start today fetch

/-! ## NBS (National Bank of Serbia, `nbs.py`) -/

structure NBSRecord where
  rate_date : Date
  exchange_middle : ℚ
deriving DecidableEq, Repr

/-- One JSON entry as seen by `parse_nbs_response`: the `date` and
`exchange_middle` fields, each possibly absent.  The numeric field is modeled
as the rational the JSON number denotes. -/
structure NBSRawEntry where
  date : Option String
  exchange_middle : Option ℚ

/-- The two response shapes: fields directly on the object for a single-day
request, a `rates` array otherwise. -/
inductive NBSResponse where
  | single (entry : NBSRawEntry)
  | multi (rates : List NBSRawEntry)

/-- One iteration of the `parse_nbs_response` loop: missing `date`, missing
`exchange_middle`, a zero `exchange_middle` and an unparseable ISO date each
abort the parse at the offending entry. -/
def parse_nbs_entry (entry : NBSRawEntry) : Except String NBSRecord :=
  match entry.date with
  | none => .error "NBS response entry missing date field"
  | some ds =>
      match entry.exchange_middle with
      | none => .error "NBS response entry missing exchange middle field"
      | some m =>
          if m = 0 then .error "NBS returned zero exchange middle"
          else
            match isoDate? ds with
            | none => .error "invalid NBS date"
            | some d => .ok ⟨d, m⟩

/-- Body of `parse_nbs_response`: validate each entry in order. -/
def parse_nbs_entries (entries : List NBSRawEntry) : Except String (List NBSRecord) :=
  mapExcept parse_nbs_entry entries

def parse_nbs_response (data : NBSResponse) : Except String (List NBSRecord) :=
  parse_nbs_entries (match data with
    | .single entry => [entry]
    | .multi rates => rates)

/-- `convert_nbs_to_usd`: `rate = (Decimal(1) / exchange_middle).quantize(...)`;
no checks here (the zero check lives in the parser). -/
def convert_nbs_to_usd (records : List NBSRecord) : List ExchangeRateRow :=
  records.map fun rec =>
    ⟨"RSD", "USD", rec.rate_date, quantize9 (1 / rec.exchange_middle)⟩

/-- The zero check of `parse_nbs_response` on already-typed records, used to
compose the NBS fetch-parse-convert phase inside `run`. -/
def nbs_zero_check : List NBSRecord → Except String Unit
  | [] => .ok ()
  | rec :: rest =>
      if rec.exchange_middle = 0 then .error "NBS returned zero exchange middle"
      else nbs_zero_check rest

/-- Parse-then-convert phase of `nbs.run` on well-formed entries: the parse
rejects a zero `exchange_middle`, then `convert_nbs_to_usd` runs. -/
def nbs_parse_convert (records : List NBSRecord) : Except String (List ExchangeRateRow) :=
  match nbs_zero_check records with
  | .error e => .error e
  | .ok _ => .ok (convert_nbs_to_usd records)

def nbs_run (store : Store) (target_start today : Date)
    (fetch : Date → Date → List NBSRecord) : Store × Except String SingleResult :=
  runSingle "RSD" nbs_parse_convert store target_start today fetch

/-! ## ECB (European Central Bank, `ecb.py`)

The ECB pipeline keeps `rate_date` as the raw `TIME_PERIOD` string exactly as
the source does (`ECBRate.rate_date: str`); dates are only parsed back in
`filter_new_rows` via `date.fromisoformat`, which can fail.  The store rows
keep the string key; for valid ISO strings equality and ordering of the
strings coincide with those of the dates they denote. -/

def ECB_CURRENCIES : List String := ["BGN", "EUR", "GBP", "TRY"]

structure ECBRate where
  currency : String
  rate_date : String
  rate_eur : ℚ
deriving DecidableEq, Repr

structure EcbRow where
  base_currency : String
  quote_currency : String
  rate_date : String
  rate : ℚ
deriving DecidableEq, Repr

abbrev EcbStore := List EcbRow

/-- One CSV data row under the header: `csv.DictReader` guarantees the three
columns exist; `OBS_VALUE` may be the empty string. -/
structure ECBCsvRow where
  currency : String
  time_period : String
  obs_value : String

/-- `parse_ecb_csv`: a row with an empty `OBS_VALUE` is skipped with
`continue`; a nonempty value must parse as a `Decimal` or the parse aborts.
`CURRENCY` and `TIME_PERIOD` are carried through unvalidated. -/
def parse_ecb_csv : List ECBCsvRow → Except String (List ECBRate)
  | [] => .ok []
  | row :: rest =>
      if row.obs_value == "" then parse_ecb_csv rest
      else
        match pyDecimal row.obs_value with
        | none => .error "Invalid rate value from ECB"
        | some q =>
            match parse_ecb_csv rest with
            | .error e => .error e
            | .ok rs => .ok (⟨row.currency, row.time_period, q⟩ :: rs)

/-- The `(CURRENCY, OBS_VALUE)` pairs of one date, in feed order. -/
def pairsOf (R : List ECBRate) (d : String) : List (String × ℚ) :=
  (R.filter fun r => r.rate_date == d).map fun r => (r.currency, r.rate_eur)

/-- One Python dict assignment `dict[k] = v`: overwrite in place or append. -/
def upsert (l : List (String × ℚ)) (kv : String × ℚ) : List (String × ℚ) :=
  if l.any (fun p => p.1 == kv.1) then
    l.map fun p => if p.1 == kv.1 then (p.1, kv.2) else p
  else l ++ [kv]

/-- Build a Python dict from pairs (later assignments win). -/
def toDict (pairs : List (String × ℚ)) : List (String × ℚ) :=
  pairs.foldl upsert []

/-- `sorted(day_rates.items())`: the per-date currency map of
`convert_eur_rates_to_usd`, sorted by currency. -/
def dayDict (R : List ECBRate) (d : String) : List (String × ℚ) :=
  sortBy (fun p q => strLe p.1 q.1) (toDict (pairsOf R d))

/-- `sorted(rates_by_date.items())` keys: the distinct dates in order. -/
def sortedDates (R : List ECBRate) : List String :=
  sortBy strLe (R.map (·.rate_date)).dedup

/-- Body of the per-date loop of `convert_eur_rates_to_usd`: a date without a
USD quote raises; the USD entry yields the EUR row carrying `eur_usd`
verbatim, every other entry yields a row quantized to nine places. -/
def convertDay (R : List ECBRate) (d : String) : Except String (List EcbRow) :=
  match List.lookup "USD" (dayDict R d) with
  | none => .error ("No EUR USD rate from ECB for " ++ d)
  | some eur_usd =>
      .ok ((dayDict R d).map fun p =>
        if p.1 == "USD" then ⟨"EUR", "USD", d, eur_usd⟩
        else ⟨p.1, "USD", d, quantize9 (eur_usd / p.2)⟩)

def convertDays (R : List ECBRate) : List String → Except String (List EcbRow)
  | [] => .ok []
  | d :: ds =>
      match convertDay R d with
      | .error e => .error e
      | .ok rows =>
          match convertDays R ds with
          | .error e => .error e
          | .ok rest => .ok (rows ++ rest)

/-- `convert_eur_rates_to_usd` (`ecb.py` lines 74-114): group by date, iterate
dates in sorted order, convert each date's map. -/
def convert_eur_rates_to_usd (ecb_rates : List ECBRate) : Except String (List EcbRow) :=
  convertDays ecb_rates (sortedDates ecb_rates)

def ecbRowKey (r : EcbRow) : String × String × String :=
  (r.base_currency, r.quote_currency, r.rate_date)

def ecbCovDates (store : EcbStore) (ccy : String) : List Date :=
  store.filterMap fun r =>
    if r.base_currency == ccy && r.quote_currency == "USD" then isoDate? r.rate_date
    else none

def ecbRange (store : EcbStore) (ccy : String) : Option DateRange :=
  match ecbCovDates store ccy with
  | [] => none
  | d :: ds => some ⟨List.foldl min d ds, List.foldl max d ds⟩

/-- `get_rate_date_ranges`: per-currency min/max over the stored rows,
currencies without rows absent from the dict. -/
def get_rate_date_ranges (store : EcbStore) (currencies : List String) :
    List (String × DateRange) :=
  currencies.filterMap fun c =>
    match ecbRange store c with
    | some rng => some (c, rng)
    | none => none

/-- `needs_backfill` of `ecb.run`: some requested currency absent from the
coverage dict, or some covered range starting after the demand floor. -/
def ecb_needs_backfill (ranges : List (String × DateRange)) (requested : List String)
    (target_start : Date) : Bool :=
  !(requested.all fun c => (List.lookup c ranges).isSome) ||
    ranges.any fun p => p.2.min_date > target_start

/-- The window start of `ecb.run` (lines 235-245): the demand floor on
backfill, else one day past the earliest per-currency covered maximum.
(When the dict is empty and no backfill triggers, Python `min(())` raises;
that point is unreachable with the nonempty `ECB_CURRENCIES`.) -/
def ecb_start (ranges : List (String × DateRange)) (requested : List String)
    (target_start : Date) : Date :=
  if ecb_needs_backfill ranges requested target_start then target_start
  else
    match ranges.map (fun p => p.2.max_date) with
    | [] => target_start
    | x :: xs => List.foldl min x xs + 1

/-- `filter_new_rows` (`ecb.py` lines 212-226): rows of unrequested
currencies are dropped before the date is even parsed; then a row is kept
iff its currency has no coverage or its date is strictly outside the range.
A malformed date string raises `ValueError` (modeled as the error case). -/
def ecb_filter_new_rows (all_rows : List EcbRow) (date_ranges : List (String × DateRange))
    (requested_currencies : List String) : Except String (List EcbRow) :=
  match all_rows with
  | [] => .ok []
  | r :: rest =>
      if !(requested_currencies.contains r.base_currency) then
        ecb_filter_new_rows rest date_ranges requested_currencies
      else
        match isoDate? r.rate_date with
        | none => .error ("invalid ECB date " ++ r.rate_date)
        | some d =>
            match ecb_filter_new_rows rest date_ranges requested_currencies with
            | .error e => .error e
            | .ok rs =>
                .ok (if (match List.lookup r.base_currency date_ranges with
                         | none => true
                         | some rng => decide (d < rng.min_date) || decide (rng.max_date < d))
                     then r :: rs else rs)

/-- `insert_rows` of `ecb.py`: byte-identical to the CBR/NBS copy, keyed here
on the raw strings (valid ISO strings are equal iff the dates they denote
are). -/
def ecb_insert_rows (store : EcbStore) (rows : List EcbRow) : EcbStore × Nat :=
  (rows.foldl
    (fun s r => if s.any (fun r2 => decide (ecbRowKey r2 = ecbRowKey r)) then s else s ++ [r])
    store,
   rows.length)

def strMax (a b : String) : String := if strLe a b then b else a

/-- `max((r["rate_date"] for r in new_rows), default=str(end))`. -/
def ecb_latest (new_rows : List EcbRow) (endStr : String) : String :=
  match new_rows with
  | [] => endStr
  | r :: rs => List.foldl strMax r.rate_date (rs.map (·.rate_date))

structure EcbResult where
  inserted : Nat
  latest_date : String
  missing_currencies : List String
deriving DecidableEq, Repr

/-- `run` of `ecb.py` (lines 229-276).  `fetch` abstracts `fetch_ecb_rates`
composed with `parse_ecb_csv` and returns the parsed rates for the requested
window. -/
def ecb_run (store : EcbStore) (target_start today : Date)
    (fetch : Date → Date → List ECBRate) : EcbStore × Except String EcbResult :=
  if today < ecb_start (get_rate_date_ranges store ECB_CURRENCIES) ECB_CURRENCIES target_start then
    (store, .ok ⟨0, dateToIso today, []⟩)
  else
    match convert_eur_rates_to_usd
        (fetch (ecb_start (get_rate_date_ranges store ECB_CURRENCIES) ECB_CURRENCIES target_start)
          today) with
    | .error e => (store, .error e)
    | .ok all_rows =>
        match ecb_filter_new_rows all_rows (get_rate_date_ranges store ECB_CURRENCIES)
            ECB_CURRENCIES with
        | .error e => (store, .error e)
        | .ok new_rows =>
            ((ecb_insert_rows store new_rows).1,
             .ok ⟨(ecb_insert_rows store new_rows).2,
                  ecb_latest new_rows (dateToIso today),
                  ECB_CURRENCIES.filter fun c =>
                    !((all_rows.map (·.base_currency)).contains c)⟩)

/-! ## Behavior of the single-currency `run` -/

theorem runSingle_upToDate {ρ : Type} (ccy : String)
    (convert : List ρ → Except String (List ExchangeRateRow))
    (store : Store) (floor today : Date) (fetch : Date → Date → List ρ)
    (h : today < planStart (get_rate_date_range store ccy) floor) :
    runSingle ccy convert store floor today fetch = (store, .ok ⟨0, today⟩) := by
  unfold runSingle
  rw [if_pos h]

theorem runSingle_fetch_congr {ρ : Type} (ccy : String)
    (convert : List ρ → Except String (List ExchangeRateRow))
    (store : Store) (floor today : Date) (f g : Date → Date → List ρ)
    (h : f (planStart (get_rate_date_range store ccy) floor) today =
         g (planStart (get_rate_date_range store ccy) floor) today) :
    runSingle ccy convert store floor today f = runSingle ccy convert store floor today g := by
  unfold runSingle
  rw [h]

/-! ## Claim C1: single-currency window planner -/

/-- C1 (confirmed).  For the single-currency providers (CBR/RUB, NBS/RSD):
with no coverage the window starts at the demand floor; with coverage whose
`min_date` exceeds the demand floor it starts at the demand floor (backfill);
otherwise at `coverage.max_date + 1` (forward fill).  The end is always
`today` (the run consults the fetcher only at `(start, today)`), and when
`start > end` the run performs no fetch and returns `inserted = 0` with the
store unchanged, whatever the fetcher would have answered. -/
theorem c1_single_window_planner :
    (∀ floor : Date, planStart none floor = floor) ∧
    (∀ rng floor, rng.min_date > floor → planStart (some rng) floor = floor) ∧
    (∀ rng floor, ¬rng.min_date > floor → planStart (some rng) floor = rng.max_date + 1) ∧
    (∀ store floor today, today < planStart (get_rate_date_range store "RUB") floor →
      ∀ fetch, cbr_run store floor today fetch = (store, .ok ⟨0, today⟩)) ∧
    (∀ store floor today, today < planStart (get_rate_date_range store "RSD") floor →
      ∀ fetch, nbs_run store floor today fetch = (store, .ok ⟨0, today⟩)) ∧
    (∀ store floor today (f g : Date → Date → List CBRRecord),
      f (planStart (get_rate_date_range store "RUB") floor) today =
        g (planStart (get_rate_date_range store "RUB") floor) today →
      cbr_run store floor today f = cbr_run store floor today g) ∧
    (∀ store floor today (f g : Date → Date → List NBSRecord),
      f (planStart (get_rate_date_range store "RSD") floor) today =
        g (planStart (get_rate_date_range store "RSD") floor) today →
      nbs_run store floor today f = nbs_run store floor today g) := by
  refine ⟨fun _ => rfl, ?_, ?_, ?_, ?_, ?_, ?_⟩
  · intro rng floor h
    simp [planStart, h]
  · intro rng floor h
    simp [planStart, h]
  · intro store floor today h fetch
    exact runSingle_upToDate _ _ _ _ _ _ h
  · intro store floor today h fetch
    exact runSingle_upToDate _ _ _ _ _ _ h
  · intro store floor today f g h
    exact runSingle_fetch_congr _ _ _ _ _ _ _ h
  · intro store floor today f g h
    exact runSingle_fetch_congr _ _ _ _ _ _ _ h

/-- Witness for C1 at concrete inputs: backfill, forward-fill, and an
empty-window run that ignores an arbitrary nonempty fetcher answer. -/
theorem c1_single_window_planner_witness :
    planStart (some ⟨10, 20⟩) 1 = 1 ∧
    planStart (some ⟨10, 20⟩) 15 = 21 ∧
    cbr_run [] 5 3 (fun _ _ => [⟨4, 1, 2⟩]) = ([], .ok ⟨0, 3⟩) := by
  refine ⟨?_, ?_, ?_⟩
  · exact c1_single_window_planner.2.1 ⟨10, 20⟩ 1 (by decide)
  · exact c1_single_window_planner.2.2.1 ⟨10, 20⟩ 15 (by decide)
  · exact c1_single_window_planner.2.2.2.1 [] 5 3 (by decide) _

/-! ## Claim C4: what `insert_rows` returns -/

/-- C4 (code bug).  `insert_rows` claims (docstring and spec) to return the
count of rows actually inserted, but returns `len(rows)`: inserting a row
whose identity key `(base_currency, quote_currency, rate_date)` is already
present leaves the store unchanged (`ON CONFLICT DO NOTHING`) yet reports 1. -/
theorem c4_insert_count_bug :
    insert_rows [⟨"RUB", "USD", 19875, 1⟩] [⟨"RUB", "USD", 19875, 2⟩] =
      ([⟨"RUB", "USD", 19875, 1⟩], 1) := by
  rfl

/-! ## Claims C7/C8: conversion arithmetic -/

theorem lookup_mem {l : List (String × ℚ)} {k : String} {v : ℚ}
    (h : List.lookup k l = some v) : (k, v) ∈ l := by
  induction l with
  | nil => simp [List.lookup] at h
  | cons p rest ih =>
      rw [List.lookup] at h
      by_cases hk : k == p.1
      · have hk2 : k = p.1 := by simpa using hk
        simp only [hk] at h
        cases h
        rw [hk2]
        exact List.mem_cons.mpr (Or.inl (by simp))
      · simp only [Bool.not_eq_true] at hk
        rw [hk] at h
        exact List.mem_cons_of_mem _ (ih h)

theorem convertDays_sub (R : List ECBRate) :
    ∀ ds rows, convertDays R ds = .ok rows →
      ∀ d ∈ ds, ∃ dayRows, convertDay R d = .ok dayRows ∧ ∀ r ∈ dayRows, r ∈ rows := by
  intro ds
  induction ds with
  | nil => intro rows _ d hd; simp at hd
  | cons d0 ds ih =>
      intro rows h d hd
      rw [convertDays] at h
      cases hday : convertDay R d0 with
      | error e => rw [hday] at h; exact absurd h (by simp)
      | ok dayRows0 =>
          rw [hday] at h
          cases hrest : convertDays R ds with
          | error e => rw [hrest] at h; exact absurd h (by simp)
          | ok rest =>
              rw [hrest] at h
              cases h
              rcases List.mem_cons.mp hd with h1 | h1
              · subst h1
                exact ⟨dayRows0, hday, fun r hr => List.mem_append_left _ hr⟩
              · obtain ⟨dayRows, h2, h3⟩ := ih rest hrest d h1
                exact ⟨dayRows, h2, fun r hr => List.mem_append_right _ (h3 r hr)⟩

theorem mem_sortedDates {R : List ECBRate} {r : ECBRate} (h : r ∈ R) :
    r.rate_date ∈ sortedDates R := by
  rw [sortedDates, mem_sortBy]
  exact List.mem_dedup.mpr (List.mem_map_of_mem _ h)

/-- C7 (confirmed).  European-feed conversion per date: with `u` the
EUR-quoted USD rate, the output contains the EUR row carrying `u` verbatim
(no division) and, for every other currency `c` quoted `v`, the row
`u / v` quantized to nine places half-even; rows of a converted date all
appear in the full converter output; and the spec's concrete example holds:
`U = 1.0850`, `C = 0.8600` gives GBP `1.261627907` and EUR `1.0850`. -/
theorem c7_ecb_conversion :
    (∀ R d u, List.lookup "USD" (dayDict R d) = some u →
      ∃ rows, convertDay R d = .ok rows ∧ (⟨"EUR", "USD", d, u⟩ : EcbRow) ∈ rows ∧
        ∀ c v, c ≠ "USD" → List.lookup c (dayDict R d) = some v →
          (⟨c, "USD", d, quantize9 (u / v)⟩ : EcbRow) ∈ rows) ∧
    (∀ R rows, convert_eur_rates_to_usd R = .ok rows →
      ∀ r ∈ R, ∃ dayRows, convertDay R r.rate_date = .ok dayRows ∧
        ∀ x ∈ dayRows, x ∈ rows) ∧
    convert_eur_rates_to_usd
        [⟨"USD", "2024-01-02", (217:ℚ)/200⟩, ⟨"GBP", "2024-01-02", (43:ℚ)/50⟩] =
      .ok [⟨"GBP", "USD", "2024-01-02", quantize9 ((217:ℚ)/200 / ((43:ℚ)/50))⟩,
           ⟨"EUR", "USD", "2024-01-02", (217:ℚ)/200⟩] ∧
    quantize9 ((217:ℚ)/200 / ((43:ℚ)/50)) = (1261627907:ℚ)/10^9 := by
  refine ⟨?_, ?_, by rfl, ?_⟩
  · intro R d u h
    refine ⟨_, by rw [convertDay, h], ?_, ?_⟩
    · have hm : ("USD", u) ∈ dayDict R d := lookup_mem h
      have := List.mem_map_of_mem
        (fun p : String × ℚ =>
          if p.1 == "USD" then (⟨"EUR", "USD", d, u⟩ : EcbRow)
          else ⟨p.1, "USD", d, quantize9 (u / p.2)⟩) hm
      simpa using this
    · intro c v hc hv
      have hm : (c, v) ∈ dayDict R d := lookup_mem hv
      have := List.mem_map_of_mem
        (fun p : String × ℚ =>
          if p.1 == "USD" then (⟨"EUR", "USD", d, u⟩ : EcbRow)
          else ⟨p.1, "USD", d, quantize9 (u / p.2)⟩) hm
      have hne : (c == "USD") = false := by
        exact beq_eq_false_iff_ne.mpr hc
      simpa [hne] using this
  · intro R rows h r hr
    exact convertDays_sub R (sortedDates R) rows h r.rate_date (mem_sortedDates hr)
  · unfold quantize9
    rw [show rhe ((217:ℚ)/200 / ((43:ℚ)/50) * 10^9) = 1261627907 from
      rhe_eq_of_close (by rw [abs_sub_lt_iff]; constructor <;> norm_num)]
    norm_num

/-- Witness for C7: the general per-date statement applied to the spec's
example feed. -/
theorem c7_ecb_conversion_witness :
    ∃ rows, convertDay
        [⟨"USD", "2024-01-02", (217:ℚ)/200⟩, ⟨"GBP", "2024-01-02", (43:ℚ)/50⟩]
        "2024-01-02" = .ok rows ∧
      (⟨"EUR", "USD", "2024-01-02", (217:ℚ)/200⟩ : EcbRow) ∈ rows ∧
      ∀ c v, c ≠ "USD" →
        List.lookup c (dayDict
          [⟨"USD", "2024-01-02", (217:ℚ)/200⟩, ⟨"GBP", "2024-01-02", (43:ℚ)/50⟩]
          "2024-01-02") = some v →
        (⟨c, "USD", "2024-01-02", quantize9 ((217:ℚ)/200 / v)⟩ : EcbRow) ∈ rows :=
  c7_ecb_conversion.1 _ "2024-01-02" ((217:ℚ)/200) (by rfl)

/-- C8 (confirmed).  Russian-bank records convert to `nominal / value`
rounded half-even to nine decimal places (characterized: the output is
`n / 10⁹` with `n` within half an ulp of the exact quotient, ties to even);
Serbian-bank records convert to `1 / exchange_middle` likewise; and the
spec's concrete example holds: nominal 1, value 91.50 gives 0.010928962. -/
theorem c8_reciprocal_conversion :
    (∀ rec : CBRRecord, rec.value ≠ 0 →
      ∃ n : ℤ, convert_cbr_to_usd [rec] =
          .ok [⟨"RUB", "USD", rec.rate_date, (n : ℚ) / 10^9⟩] ∧
        |(n : ℚ) / 10^9 - (rec.nominal : ℚ) / rec.value| ≤ 1/(2 * 10^9) ∧
        (|(n : ℚ) / 10^9 - (rec.nominal : ℚ) / rec.value| = 1/(2 * 10^9) → n % 2 = 0)) ∧
    (∀ rec : NBSRecord, rec.exchange_middle ≠ 0 →
      ∃ n : ℤ, convert_nbs_to_usd [rec] =
          [⟨"RSD", "USD", rec.rate_date, (n : ℚ) / 10^9⟩] ∧
        |(n : ℚ) / 10^9 - 1 / rec.exchange_middle| ≤ 1/(2 * 10^9) ∧
        (|(n : ℚ) / 10^9 - 1 / rec.exchange_middle| = 1/(2 * 10^9) → n % 2 = 0)) ∧
    convert_cbr_to_usd [⟨0, 1, (91.5 : ℚ)⟩] =
      .ok [⟨"RUB", "USD", 0, (10928962 : ℚ) / 10^9⟩] := by
  refine ⟨?_, ?_, ?_⟩
  · intro rec hv
    obtain ⟨n, hq, h1, h2⟩ := quantize9_char ((rec.nominal : ℚ) / rec.value)
    refine ⟨n, ?_, h1, h2⟩
    rw [convert_cbr_to_usd, if_neg hv, convert_cbr_to_usd, hq]
  · intro rec hv
    obtain ⟨n, hq, h1, h2⟩ := quantize9_char (1 / rec.exchange_middle)
    refine ⟨n, ?_, h1, h2⟩
    rw [convert_nbs_to_usd]
    simp only [List.map]
    rw [hq]
  · rw [convert_cbr_to_usd, if_neg (by norm_num), convert_cbr_to_usd]
    have harg : ((1 : ℤ) : ℚ) / (91.5 : ℚ) = 2/183 := by norm_num
    have : quantize9 (((1 : ℤ) : ℚ) / (91.5 : ℚ)) = (10928962 : ℚ) / 10^9 := by
      rw [harg]
      unfold quantize9
      rw [show rhe ((2:ℚ)/183 * 10^9) = 10928962 from
        rhe_eq_of_close (by rw [abs_sub_lt_iff]; constructor <;> norm_num)]
      norm_num
    rw [this]

/-- Witness for C8: both general statements applied at the spec's concrete
records. -/
theorem c8_reciprocal_conversion_witness :
    (∃ n : ℤ, convert_cbr_to_usd [⟨0, 1, (91.5 : ℚ)⟩] =
        .ok [⟨"RUB", "USD", 0, (n : ℚ) / 10^9⟩] ∧
      |(n : ℚ) / 10^9 - ((1 : ℤ) : ℚ) / (91.5 : ℚ)| ≤ 1/(2 * 10^9) ∧
      (|(n : ℚ) / 10^9 - ((1 : ℤ) : ℚ) / (91.5 : ℚ)| = 1/(2 * 10^9) → n % 2 = 0)) ∧
    (∃ n : ℤ, convert_nbs_to_usd [⟨0, (91.5 : ℚ)⟩] =
        [⟨"RSD", "USD", 0, (n : ℚ) / 10^9⟩] ∧
      |(n : ℚ) / 10^9 - 1 / (91.5 : ℚ)| ≤ 1/(2 * 10^9) ∧
      (|(n : ℚ) / 10^9 - 1 / (91.5 : ℚ)| = 1/(2 * 10^9) → n % 2 = 0)) :=
  ⟨c8_reciprocal_conversion.1 ⟨0, 1, (91.5 : ℚ)⟩ (by norm_num),
   c8_reciprocal_conversion.2.1 ⟨0, (91.5 : ℚ)⟩ (by norm_num)⟩

/-! ## Claim C3: shape of converted rates -/

theorem rhe_half : rhe ((1:ℚ)/2) = 0 := by
  have h := rhe_char ((1:ℚ)/2)
  have h1 := abs_le.mp h.1
  have hub : (rhe ((1:ℚ)/2) : ℚ) ≤ 1 := by linarith [h1.1, h1.2]
  have hlb : (0:ℚ) ≤ (rhe ((1:ℚ)/2) : ℚ) := by linarith [h1.1, h1.2]
  have hub2 : rhe ((1:ℚ)/2) ≤ 1 := by exact_mod_cast hub
  have hlb2 : 0 ≤ rhe ((1:ℚ)/2) := by exact_mod_cast hlb
  have hcases : rhe ((1:ℚ)/2) = 0 ∨ rhe ((1:ℚ)/2) = 1 := by omega
  rcases hcases with h0 | hone
  · exact h0
  · exfalso
    have htie : |(rhe ((1:ℚ)/2) : ℚ) - 1/2| = 1/2 := by
      rw [hone]; norm_num
    have := h.2 htie
    rw [hone] at this
    omega

theorem convert_cbr_ok_props (recs : List CBRRecord) :
    ∀ rows, convert_cbr_to_usd recs = .ok rows →
      (∀ r ∈ rows, is9dp r.rate) ∧
      ((∀ rec ∈ recs, 0 < rec.nominal ∧ 0 < rec.value) → ∀ r ∈ rows, 0 ≤ r.rate) ∧
      ((∀ rec ∈ recs, 1/(2 * 10^9) < (rec.nominal : ℚ) / rec.value) →
        ∀ r ∈ rows, 0 < r.rate) := by
  induction recs with
  | nil =>
      intro rows h
      rw [convert_cbr_to_usd] at h
      cases h
      exact ⟨by simp, by simp, by simp⟩
  | cons rec rest ih =>
      intro rows h
      rw [convert_cbr_to_usd] at h
      by_cases hv : rec.value = 0
      · rw [if_pos hv] at h; exact absurd h (by simp)
      · rw [if_neg hv] at h
        cases hr : convert_cbr_to_usd rest with
        | error e => rw [hr] at h; exact absurd h (by simp)
        | ok rows2 =>
            rw [hr] at h
            cases h
            obtain ⟨ih1, ih2, ih3⟩ := ih rows2 hr
            refine ⟨?_, ?_, ?_⟩
            · intro r hr2
              rcases List.mem_cons.mp hr2 with h1 | h1
              · subst h1; exact is9dp_quantize9 _
              · exact ih1 r h1
            · intro hpos r hr2
              rcases List.mem_cons.mp hr2 with h1 | h1
              · subst h1
                have hp := hpos rec (List.mem_cons_self _ _)
                exact quantize9_nonneg
                  (div_nonneg (by exact_mod_cast hp.1.le) hp.2.le)
              · exact ih2 (fun x hx => hpos x (List.mem_cons_of_mem _ hx)) r h1
            · intro hpos r hr2
              rcases List.mem_cons.mp hr2 with h1 | h1
              · subst h1
                exact quantize9_pos (hpos rec (List.mem_cons_self _ _))
              · exact ih3 (fun x hx => hpos x (List.mem_cons_of_mem _ hx)) r h1

theorem convertDay_props {R : List ECBRate} {d : String} {rows : List EcbRow}
    (h : convertDay R d = .ok rows) :
    ∀ r ∈ rows, r.base_currency = "EUR" ∨ is9dp r.rate := by
  rw [convertDay] at h
  cases hl : List.lookup "USD" (dayDict R d) with
  | none => rw [hl] at h; exact absurd h (by simp)
  | some u =>
      rw [hl] at h
      cases h
      intro r hr
      obtain ⟨p, _, hp⟩ := List.mem_map.mp hr
      by_cases hu : p.1 == "USD"
      · rw [if_pos hu] at hp; subst hp; left; rfl
      · rw [if_neg hu] at hp; subst hp; right; exact is9dp_quantize9 _

theorem convertDays_props (R : List ECBRate) :
    ∀ ds rows, convertDays R ds = .ok rows →
      ∀ r ∈ rows, r.base_currency = "EUR" ∨ is9dp r.rate := by
  intro ds
  induction ds with
  | nil => intro rows h; cases h; simp
  | cons d0 ds ih =>
      intro rows h
      rw [convertDays] at h
      cases hday : convertDay R d0 with
      | error e => rw [hday] at h; exact absurd h (by simp)
      | ok dayRows =>
          rw [hday] at h
          cases hrest : convertDays R ds with
          | error e => rw [hrest] at h; exact absurd h (by simp)
          | ok rest =>
              rw [hrest] at h
              cases h
              intro r hr
              rcases List.mem_append.mp hr with h1 | h1
              · exact convertDay_props hday r h1
              · exact ih rest hrest r h1

/-- C3 (corrected).  The division-produced canonical rates (CBR, NBS, and
the non-EUR rows of the ECB converter) are always quantized to exactly nine
decimal places; with positive record fields they are nonnegative, and they
are strictly positive exactly when the exact quotient exceeds half an ulp
(`5·10⁻¹⁰`).  The EUR row of the ECB converter carries the raw EUR/USD quote
verbatim, at source precision. -/
theorem c3_rate_shape_amended :
    (∀ recs rows, convert_cbr_to_usd recs = .ok rows →
      (∀ r ∈ rows, is9dp r.rate) ∧
      ((∀ rec ∈ recs, 0 < rec.nominal ∧ 0 < rec.value) → ∀ r ∈ rows, 0 ≤ r.rate) ∧
      ((∀ rec ∈ recs, 1/(2 * 10^9) < (rec.nominal : ℚ) / rec.value) →
        ∀ r ∈ rows, 0 < r.rate)) ∧
    (∀ recs : List NBSRecord,
      (∀ r ∈ convert_nbs_to_usd recs, is9dp r.rate) ∧
      ((∀ rec ∈ recs, 0 < rec.exchange_middle) →
        ∀ r ∈ convert_nbs_to_usd recs, 0 ≤ r.rate) ∧
      ((∀ rec ∈ recs, 1/(2 * 10^9) < 1 / rec.exchange_middle) →
        ∀ r ∈ convert_nbs_to_usd recs, 0 < r.rate)) ∧
    (∀ R rows, convert_eur_rates_to_usd R = .ok rows →
      ∀ r ∈ rows, r.base_currency = "EUR" ∨ is9dp r.rate) := by
  refine ⟨fun recs => convert_cbr_ok_props recs, ?_, ?_⟩
  · intro recs
    refine ⟨?_, ?_, ?_⟩
    · intro r hr
      obtain ⟨rec, _, hp⟩ := List.mem_map.mp hr
      subst hp
      exact is9dp_quantize9 _
    · intro hpos r hr
      obtain ⟨rec, hm, hp⟩ := List.mem_map.mp hr
      subst hp
      have hmid := hpos rec hm
      exact quantize9_nonneg (div_nonneg zero_le_one hmid.le)
    · intro hpos r hr
      obtain ⟨rec, hm, hp⟩ := List.mem_map.mp hr
      subst hp
      exact quantize9_pos (hpos rec hm)
  · intro R rows h
    exact convertDays_props R (sortedDates R) rows h

/-- Counterexample to C3 as stated: the ECB EUR row is not re-rounded (a
ten-digit EUR/USD quote survives with ten fraction digits, which no multiple
of `10⁻⁹` equals), and a valid Serbian record with `exchange_middle =
2·10⁹` produces the canonical rate `0`, which is not strictly positive. -/
theorem c3_rate_shape_cex :
    convert_eur_rates_to_usd [⟨"USD", "2024-01-02", (10123456789:ℚ)/10^10⟩] =
      .ok [⟨"EUR", "USD", "2024-01-02", (10123456789:ℚ)/10^10⟩] ∧
    ¬is9dp ((10123456789:ℚ)/10^10) ∧
    convert_nbs_to_usd [⟨0, (2000000000 : ℚ)⟩] =
      [⟨"RSD", "USD", 0, quantize9 (1 / (2000000000 : ℚ))⟩] ∧
    quantize9 (1 / (2000000000 : ℚ)) = 0 := by
  refine ⟨by rfl, ?_, by rfl, ?_⟩
  · rintro ⟨n, hn⟩
    rw [div_eq_div_iff (by norm_num) (by norm_num)] at hn
    have h3 : (10123456789 * 10^9 : ℤ) = n * 10^10 := by exact_mod_cast hn
    omega
  · unfold quantize9
    rw [show (1 / (2000000000:ℚ)) * 10^9 = 1/2 by norm_num, rhe_half]
    norm_num

/-- Witness for C3: a Serbian record with `exchange_middle = 2` yields a
strictly positive rate, and the ECB EUR row falls under the EUR disjunct. -/
theorem c3_rate_shape_amended_witness :
    0 < quantize9 (1 / (2:ℚ)) ∧
    ((⟨"EUR", "USD", "2024-01-02", (217:ℚ)/200⟩ : EcbRow).base_currency = "EUR" ∨
      is9dp ((217:ℚ)/200)) := by
  constructor
  · exact (c3_rate_shape_amended.2.1 [⟨0, (2:ℚ)⟩]).2.2
      (by
        intro rec hm
        rw [List.mem_singleton] at hm
        subst hm
        norm_num)
      ⟨"RSD", "USD", 0, quantize9 (1 / (2:ℚ))⟩
      (List.mem_singleton.mpr rfl)
  · exact c3_rate_shape_amended.2.2
      [⟨"USD", "2024-01-02", (217:ℚ)/200⟩]
      [⟨"EUR", "USD", "2024-01-02", (217:ℚ)/200⟩]
      (by rfl)
      ⟨"EUR", "USD", "2024-01-02", (217:ℚ)/200⟩
      (List.mem_singleton.mpr rfl)

/-! ## Claim C5: parser validation -/

/-- A CBR XML record with all required fields present and parseable. -/
def cbrRawOk (raw : CBRRawRecord) : Bool :=
  match raw.date, raw.nominal, raw.value with
  | some ds, some ns, some vs =>
      (parse_cbr_date ds).isSome && (pyIntChars (trimChars ns.toList)).isSome && (parse_cbr_decimal vs).isSome
  | _, _, _ => false

/-- An NBS entry with both fields present, a nonzero middle rate and a valid
date. -/
def nbsEntryOk (entry : NBSRawEntry) : Bool :=
  match entry.date, entry.exchange_middle with
  | some ds, some m => !decide (m = 0) && (isoDate? ds).isSome
  | _, _ => false

/-- An ECB CSV row the parser accepts: empty observation (skipped) or a
parseable decimal. -/
def ecbRowOk (row : ECBCsvRow) : Bool :=
  row.obs_value == "" || (pyDecimal row.obs_value).isSome

theorem parse_cbr_record_ok_iff (raw : CBRRawRecord) :
    (∃ rec, parse_cbr_record raw = .ok rec) ↔ cbrRawOk raw = true := by
  rcases raw with ⟨d, n, v⟩
  cases d with
  | none => simp [parse_cbr_record, cbrRawOk]
  | some ds =>
      cases n with
      | none => simp [parse_cbr_record, cbrRawOk]
      | some ns =>
          cases v with
          | none => simp [parse_cbr_record, cbrRawOk]
          | some vs =>
              simp only [parse_cbr_record, cbrRawOk]
              cases hpd : parse_cbr_date ds <;> cases hpi : pyIntChars (trimChars ns.toList) <;>
                cases hpv : parse_cbr_decimal vs <;> simp

theorem parse_nbs_entry_ok_iff (entry : NBSRawEntry) :
    (∃ rec, parse_nbs_entry entry = .ok rec) ↔ nbsEntryOk entry = true := by
  rcases entry with ⟨d, m⟩
  cases d with
  | none => simp [parse_nbs_entry, nbsEntryOk]
  | some ds =>
      cases m with
      | none => simp [parse_nbs_entry, nbsEntryOk]
      | some mv =>
          simp only [parse_nbs_entry, nbsEntryOk]
          by_cases hz : mv = 0
          · simp [hz]
          · cases hd : isoDate? ds <;> simp [hz, hd]

theorem parse_ecb_ok_iff : ∀ rows : List ECBCsvRow,
    (∃ rates, parse_ecb_csv rows = .ok rates) ↔ ∀ row ∈ rows, ecbRowOk row = true := by
  intro rows
  induction rows with
  | nil =>
      constructor
      · intro _ r hr; simp at hr
      · intro _; exact ⟨[], rfl⟩
  | cons row rest ih =>
      rw [parse_ecb_csv]
      by_cases he : row.obs_value == ""
      · rw [if_pos he]
        constructor
        · intro h x hx
          rcases List.mem_cons.mp hx with h1 | h1
          · subst h1; simp [ecbRowOk, he]
          · exact ih.mp h x h1
        · intro hall
          exact ih.mpr fun x hx => hall x (List.mem_cons_of_mem _ hx)
      · rw [if_neg he]
        cases hp : pyDecimal row.obs_value with
        | none =>
            constructor
            · rintro ⟨rates, h⟩; exact absurd h (by simp)
            · intro hall
              have := hall row (List.mem_cons_self _ _)
              rw [ecbRowOk] at this
              simp [he, hp] at this
        | some q =>
            constructor
            · rintro ⟨rates, h⟩ x hx
              rcases List.mem_cons.mp hx with h1 | h1
              · subst h1; simp [ecbRowOk, hp]
              · cases hrest : parse_ecb_csv rest with
                | error e => rw [hrest] at h; exact absurd h (by simp)
                | ok rs => exact ih.mp ⟨rs, hrest⟩ x h1
            · intro hall
              obtain ⟨rs, hrs⟩ := ih.mpr fun x hx => hall x (List.mem_cons_of_mem _ hx)
              exact ⟨_, by rw [hrs]⟩

theorem parse_ecb_length : ∀ (rows : List ECBCsvRow) rates,
    parse_ecb_csv rows = .ok rates →
    rates.length = (rows.filter fun r => !(r.obs_value == "")).length := by
  intro rows
  induction rows with
  | nil => intro rates h; cases h; rfl
  | cons row rest ih =>
      intro rates h
      rw [parse_ecb_csv] at h
      by_cases he : row.obs_value == ""
      · rw [if_pos he] at h
        rw [List.filter_cons_of_neg (by simp [he])]
        exact ih rates h
      · rw [if_neg he] at h
        cases hp : pyDecimal row.obs_value with
        | none => rw [hp] at h; exact absurd h (by simp)
        | some q =>
            rw [hp] at h
            cases hrest : parse_ecb_csv rest with
            | error e => rw [hrest] at h; exact absurd h (by simp)
            | ok rs =>
                rw [hrest] at h
                cases h
                rw [List.filter_cons_of_pos (by simp [he])]
                simp [ih rs hrest]

/-- C5 (corrected).  The CBR and NBS parsers accept a payload exactly when
every record carries its required fields with parseable (and for NBS,
nonzero) values, record count is preserved (nothing skipped), and the first
malformed record aborts the parse.  The ECB parser accepts exactly when all
nonempty observation values are numeric, but a record with an EMPTY
observation value is silently skipped rather than failing: the output length
is the count of nonempty-valued rows only. -/
theorem c5_parsers_amended :
    (∀ raws : List CBRRawRecord,
      (∃ recs, parse_cbr_xml raws = .ok recs) ↔ ∀ raw ∈ raws, cbrRawOk raw = true) ∧
    (∀ raws recs, parse_cbr_xml raws = .ok recs → recs.length = raws.length) ∧
    (∀ entries : List NBSRawEntry,
      (∃ recs, parse_nbs_entries entries = .ok recs) ↔
        ∀ entry ∈ entries, nbsEntryOk entry = true) ∧
    (∀ entries recs, parse_nbs_entries entries = .ok recs →
      recs.length = entries.length) ∧
    (∀ rows : List ECBCsvRow,
      (∃ rates, parse_ecb_csv rows = .ok rates) ↔ ∀ row ∈ rows, ecbRowOk row = true) ∧
    (∀ rows rates, parse_ecb_csv rows = .ok rates →
      rates.length = (rows.filter fun r => !(r.obs_value == "")).length) := by
  refine ⟨?_, ?_, ?_, ?_, parse_ecb_ok_iff, parse_ecb_length⟩
  · intro raws
    rw [show (∃ recs, parse_cbr_xml raws = .ok recs) ↔
        ∀ raw ∈ raws, ∃ rec, parse_cbr_record raw = .ok rec from
      mapExcept_ok_iff parse_cbr_record raws]
    exact forall₂_congr fun raw _ => parse_cbr_record_ok_iff raw
  · intro raws recs h
    exact mapExcept_length parse_cbr_record raws recs h
  · intro entries
    rw [show (∃ recs, parse_nbs_entries entries = .ok recs) ↔
        ∀ entry ∈ entries, ∃ rec, parse_nbs_entry entry = .ok rec from
      mapExcept_ok_iff parse_nbs_entry entries]
    exact forall₂_congr fun entry _ => parse_nbs_entry_ok_iff entry
  · intro entries recs h
    exact mapExcept_length parse_nbs_entry entries recs h

/-- Counterexample to C5 as stated: an ECB record whose observation value is
absent (empty) does not make the parse fail; the parse succeeds and the
record is silently dropped. -/
theorem c5_ecb_silent_skip_cex :
    parse_ecb_csv [⟨"GBP", "2024-01-02", ""⟩] = .ok [] ∧
    ∀ e, parse_ecb_csv [⟨"GBP", "2024-01-02", ""⟩] ≠ .error e := by
  exact ⟨rfl, fun e h => Except.noConfusion h⟩

/-- Witness for C5: well-formed concrete payloads parse successfully for all
three providers. -/
theorem c5_parsers_amended_witness :
    (∃ recs, parse_cbr_xml [⟨some "02.06.2024", some "1", some "77,0223"⟩] = .ok recs) ∧
    (∃ recs, parse_nbs_entries [⟨some "2024-06-02", some (99 : ℚ)⟩] = .ok recs) ∧
    (∃ rates, parse_ecb_csv [⟨"GBP", "2024-06-02", "0.8600"⟩] = .ok rates) := by
  refine ⟨?_, ?_, ?_⟩
  · exact (c5_parsers_amended.1 _).mpr (by decide)
  · exact (c5_parsers_amended.2.2.1 _).mpr (by decide)
  · exact (c5_parsers_amended.2.2.2.2.1 _).mpr (by decide)

/-! ## Claim C10: row filters -/

/-- The keep-condition of the ECB `filter_new_rows` as a predicate: requested
currency, and date strictly outside that currency's coverage (or no
coverage). -/
def ecbKeep (ranges : List (String × DateRange)) (req : List String) (r : EcbRow) : Bool :=
  req.contains r.base_currency &&
    (match isoDate? r.rate_date with
     | none => false
     | some d =>
         match List.lookup r.base_currency ranges with
         | none => true
         | some rng => decide (d < rng.min_date) || decide (rng.max_date < d))

theorem ecb_filter_eq (ranges : List (String × DateRange)) (req : List String) :
    ∀ rows, (∀ r ∈ rows, (isoDate? r.rate_date).isSome) →
      ecb_filter_new_rows rows ranges req = .ok (rows.filter (ecbKeep ranges req)) := by
  intro rows
  induction rows with
  | nil => intro _; rfl
  | cons r rest ih =>
      intro hval
      rw [ecb_filter_new_rows]
      cases hcb : req.contains r.base_currency with
      | true =>
          rw [if_neg (by simp [hcb])]
          obtain ⟨d, hd⟩ := Option.isSome_iff_exists.mp (hval r (List.mem_cons_self _ _))
          rw [hd, ih fun x hx => hval x (List.mem_cons_of_mem _ hx)]
          rw [List.filter_cons]
          simp only [ecbKeep, hcb, hd, Bool.true_and]
      | false =>
          rw [if_pos (by simp [hcb]), ih fun x hx => hval x (List.mem_cons_of_mem _ hx)]
          rw [List.filter_cons_of_neg (by simp only [ecbKeep, hcb, Bool.false_and]; simp)]

/-- C10 (corrected).  The CBR/NBS filter keeps exactly the rows dated
strictly outside the provider range (everything when there is no coverage).
The ECB filter keeps exactly the rows of a REQUESTED currency dated strictly
outside that currency's coverage (all dates of a requested currency without
coverage): a row whose base currency is not requested is dropped before any
coverage check, even when it has no coverage. -/
theorem c10_filter_amended :
    (∀ rows, filter_new_rows rows none = rows) ∧
    (∀ rows rng r, r ∈ filter_new_rows rows (some rng) ↔
      r ∈ rows ∧ (r.rate_date < rng.min_date ∨ rng.max_date < r.rate_date)) ∧
    (∀ ranges req rows, (∀ r ∈ rows, (isoDate? r.rate_date).isSome) →
      ecb_filter_new_rows rows ranges req = .ok (rows.filter (ecbKeep ranges req))) ∧
    (∀ ranges req r, ecbKeep ranges req r = true ↔
      r.base_currency ∈ req ∧ ∃ d, isoDate? r.rate_date = some d ∧
        (match List.lookup r.base_currency ranges with
         | none => True
         | some rng => d < rng.min_date ∨ rng.max_date < d)) := by
  refine ⟨fun rows => rfl, ?_, ecb_filter_eq, ?_⟩
  · intro rows rng r
    rw [filter_new_rows]
    simp [List.mem_filter]
  · intro ranges req r
    rw [ecbKeep]
    cases hd : isoDate? r.rate_date with
    | none => simp [hd]
    | some d =>
        cases hl : List.lookup r.base_currency ranges with
        | none => simp [hd, hl]
        | some rng => simp [hd, hl]

/-- Counterexample to C10 as stated: a row whose currency has NO coverage is
nevertheless dropped by the ECB filter because its currency is not in the
requested list — the claim says rows without coverage are all kept. -/
theorem c10_filter_cex :
    ecb_filter_new_rows [⟨"JPY", "USD", "2024-01-02", 1⟩] [] ["EUR"] = .ok [] ∧
    List.lookup "JPY" ([] : List (String × DateRange)) = none := ⟨rfl, rfl⟩

/-- Witness for C10: the ECB filter applied to one valid requested row. -/
theorem c10_filter_amended_witness :
    ecb_filter_new_rows [⟨"EUR", "USD", "2024-01-02", 1⟩] [] ["EUR"] =
      .ok [⟨"EUR", "USD", "2024-01-02", 1⟩] := by
  rw [c10_filter_amended.2.2.1 [] ["EUR"] [⟨"EUR", "USD", "2024-01-02", 1⟩] (by decide)]
  rfl

/-! ## Claim C6: ECB batched window planner -/

/-- C6 (confirmed).  The ECB run backfills (start = demand floor) exactly
when some requested currency is absent from the coverage dict or some
covered range begins after the demand floor; otherwise the start is one day
past the minimum per-currency covered maximum.  The run consults the fetcher
only at `(start, today)`, so the end of the window is always `today`. -/
theorem c6_ecb_window_union :
    (∀ (ranges : List (String × DateRange)) req floor,
      ecb_needs_backfill ranges req floor = true ↔
        (∃ c ∈ req, List.lookup c ranges = none) ∨ ∃ p ∈ ranges, floor < p.2.min_date) ∧
    (∀ ranges req floor, ecb_needs_backfill ranges req floor = true →
      ecb_start ranges req floor = floor) ∧
    (∀ ranges req floor, ecb_needs_backfill ranges req floor = false → ranges ≠ [] →
      ∃ m, (∀ p ∈ ranges, m ≤ p.2.max_date) ∧ (∃ p ∈ ranges, p.2.max_date = m) ∧
        ecb_start ranges req floor = m + 1) ∧
    (∀ store floor, ecb_needs_backfill (get_rate_date_ranges store ECB_CURRENCIES)
        ECB_CURRENCIES floor = false → get_rate_date_ranges store ECB_CURRENCIES ≠ []) ∧
    (∀ store floor today f g,
      f (ecb_start (get_rate_date_ranges store ECB_CURRENCIES) ECB_CURRENCIES floor) today =
        g (ecb_start (get_rate_date_ranges store ECB_CURRENCIES) ECB_CURRENCIES floor) today →
      ecb_run store floor today f = ecb_run store floor today g) := by
  refine ⟨?_, ?_, ?_, ?_, ?_⟩
  · intro ranges req floor
    rw [ecb_needs_backfill]
    simp only [Bool.or_eq_true, Bool.not_eq_true', List.all_eq_false, List.any_eq_true,
      decide_eq_true_eq]
    constructor
    · rintro (⟨c, hc, hn⟩ | ⟨p, hp, hlt⟩)
      · exact Or.inl ⟨c, hc, Option.not_isSome_iff_eq_none.mp (by simp [hn])⟩
      · exact Or.inr ⟨p, hp, hlt⟩
    · rintro (⟨c, hc, hn⟩ | ⟨p, hp, hlt⟩)
      · exact Or.inl ⟨c, hc, by simp [hn]⟩
      · exact Or.inr ⟨p, hp, hlt⟩
  · intro ranges req floor h
    rw [ecb_start, if_pos h]
  · intro ranges req floor h hne
    cases hr : ranges with
    | nil => exact absurd hr hne
    | cons p ps =>
        refine ⟨List.foldl min p.2.max_date (ps.map fun q => q.2.max_date), ?_, ?_, ?_⟩
        · intro q hq
          apply foldl_min_le
          rcases List.mem_cons.mp hq with h1 | h1
          · subst h1; exact List.mem_cons_self _ _
          · exact List.mem_cons_of_mem _ (List.mem_map_of_mem _ h1)
        · have hm := foldl_min_mem (ps.map fun q => q.2.max_date) p.2.max_date
          rcases List.mem_cons.mp hm with h1 | h1
          · exact ⟨p, List.mem_cons_self _ _, h1.symm⟩
          · obtain ⟨q, hq, hqe⟩ := List.mem_map.mp h1
            exact ⟨q, List.mem_cons_of_mem _ hq, hqe⟩
        · rw [hr] at h
          rw [ecb_start, if_neg (by simp [h]), List.map_cons]
  · intro store floor h hnil
    rw [hnil] at h
    exact absurd h (by simp [ecb_needs_backfill, ECB_CURRENCIES])
  · intro store floor today f g h
    unfold ecb_run
    rw [h]

/-- Witness for C6: a concrete store covering only some currencies
backfills; one covering all of them forward-fills from the earliest covered
maximum. -/
theorem c6_ecb_window_union_witness :
    ecb_needs_backfill [] ECB_CURRENCIES 5 = true ∧
    ecb_start [] ECB_CURRENCIES 5 = 5 ∧
    (∃ m, (∀ p ∈ [("BGN", (⟨0, 3⟩ : DateRange)), ("EUR", ⟨0, 7⟩), ("GBP", ⟨0, 4⟩),
        ("TRY", ⟨0, 9⟩)], m ≤ p.2.max_date) ∧
      (∃ p ∈ [("BGN", (⟨0, 3⟩ : DateRange)), ("EUR", ⟨0, 7⟩), ("GBP", ⟨0, 4⟩),
        ("TRY", ⟨0, 9⟩)], p.2.max_date = m) ∧
      ecb_start [("BGN", (⟨0, 3⟩ : DateRange)), ("EUR", ⟨0, 7⟩), ("GBP", ⟨0, 4⟩),
        ("TRY", ⟨0, 9⟩)] ECB_CURRENCIES 0 = m + 1) := by
  refine ⟨?_, ?_, ?_⟩
  · exact (c6_ecb_window_union.1 [] ECB_CURRENCIES 5).mpr
      (Or.inl ⟨"BGN", by decide, rfl⟩)
  · exact c6_ecb_window_union.2.1 [] ECB_CURRENCIES 5
      ((c6_ecb_window_union.1 [] ECB_CURRENCIES 5).mpr (Or.inl ⟨"BGN", by decide, rfl⟩))
  · exact c6_ecb_window_union.2.2.1 _ ECB_CURRENCIES 0 (by decide) (by decide)

/-! ## Claim C9: a date without a USD quote aborts the ECB run -/

theorem convertDays_err (R : List ECBRate) :
    ∀ ds, (∃ d ∈ ds, List.lookup "USD" (dayDict R d) = none) →
      ∃ e, convertDays R ds = .error e := by
  intro ds
  induction ds with
  | nil => rintro ⟨d, hd, _⟩; simp at hd
  | cons d0 ds ih =>
      rintro ⟨d, hd, hnone⟩
      rcases List.mem_cons.mp hd with h1 | h1
      · subst h1
        refine ⟨"No EUR USD rate from ECB for " ++ d, ?_⟩
        rw [convertDays, convertDay, hnone]
      · cases hday : convertDay R d0 with
        | error e => exact ⟨e, by rw [convertDays, hday]⟩
        | ok rows =>
            obtain ⟨e, he⟩ := ih ⟨d, h1, hnone⟩
            exact ⟨e, by rw [convertDays, hday, he]⟩

/-- C9 (confirmed).  When the window is nonempty and the parsed rates
contain some date with no USD quote, the conversion fails (the source's
`MissingReferenceRateError` case), the run returns that error, and the store
is unchanged — zero rows inserted. -/
theorem c9_missing_usd_aborts :
    ∀ (store : EcbStore) (floor today : Date) (fetch : Date → Date → List ECBRate),
      ¬today < ecb_start (get_rate_date_ranges store ECB_CURRENCIES) ECB_CURRENCIES floor →
      (∃ r ∈ fetch (ecb_start (get_rate_date_ranges store ECB_CURRENCIES)
            ECB_CURRENCIES floor) today,
        List.lookup "USD"
          (dayDict (fetch (ecb_start (get_rate_date_ranges store ECB_CURRENCIES)
              ECB_CURRENCIES floor) today) r.rate_date) = none) →
      (ecb_run store floor today fetch).1 = store ∧
        ∃ e, (ecb_run store floor today fetch).2 = .error e := by
  intro store floor today fetch h1 hex
  obtain ⟨r, hr, hnone⟩ := hex
  obtain ⟨e, he⟩ := convertDays_err _ _ ⟨r.rate_date, mem_sortedDates hr, hnone⟩
  have hconv : convert_eur_rates_to_usd
      (fetch (ecb_start (get_rate_date_ranges store ECB_CURRENCIES) ECB_CURRENCIES floor)
        today) = .error e := he
  rw [ecb_run, if_neg h1, hconv]
  exact ⟨rfl, e, rfl⟩

/-- Witness for C9: a one-row GBP feed with no USD quote error-aborts the
run on an empty store. -/
theorem c9_missing_usd_aborts_witness :
    (ecb_run [] 0 0 (fun _ _ => [⟨"GBP", "2024-01-02", (43:ℚ)/50⟩])).1 = [] ∧
    ∃ e, (ecb_run [] 0 0 (fun _ _ => [⟨"GBP", "2024-01-02", (43:ℚ)/50⟩])).2 = .error e := by
  exact c9_missing_usd_aborts [] 0 0 _ (by decide)
    ⟨⟨"GBP", "2024-01-02", (43:ℚ)/50⟩, List.mem_singleton.mpr rfl, rfl⟩

/-! ## Claim C2: idempotence

A consistent, unchanged provider is a fixed dataset answered as the
restriction to the requested window. -/

/-- Provider responses drawn unchanged from the fixed dataset `D`:
the records whose date falls in the requested window. -/
def windowFetch (D : List ρ) (rdate : ρ → Date) (s e : Date) : List ρ :=
  D.filter fun rec => decide (s ≤ rdate rec) && decide (rdate rec ≤ e)

/-- Same for the ECB dataset of string-dated rates. -/
def ecbWindowFetch (D : List ECBRate) (s e : Date) : List ECBRate :=
  D.filter fun r =>
    match isoDate? r.rate_date with
    | some d => decide (s ≤ d) && decide (d ≤ e)
    | none => false

theorem insert_rows_spec (rows : List ExchangeRateRow) :
    ∀ store, ∃ tl, (insert_rows store rows).1 = store ++ tl ∧
      (∀ r ∈ tl, r ∈ rows) ∧
      (∀ r ∈ rows, ∃ r2 ∈ (insert_rows store rows).1, rowKey r2 = rowKey r) := by
  induction rows with
  | nil =>
      intro store
      exact ⟨[], by simp [insert_rows], by simp, by simp⟩
  | cons r rs ih =>
      intro store
      have hstep : ∀ s2 : Store, (insert_rows store (r :: rs)).1 =
          (insert_rows (if store.any (fun r2 => decide (rowKey r2 = rowKey r)) then store
            else store ++ [r]) rs).1 := fun _ => rfl
      by_cases hc : store.any (fun r2 => decide (rowKey r2 = rowKey r)) = true
      · obtain ⟨tl, h1, h2, h3⟩ := ih store
        refine ⟨tl, ?_, fun x hx => List.mem_cons_of_mem _ (h2 x hx), ?_⟩
        · rw [hstep store, if_pos hc]; exact h1
        · intro x hx
          rcases List.mem_cons.mp hx with h4 | h4
          · subst h4
            obtain ⟨r2, hr2, hk⟩ := List.any_eq_true.mp hc
            refine ⟨r2, ?_, of_decide_eq_true hk⟩
            rw [hstep store, if_pos hc, h1]
            exact List.mem_append_left _ hr2
          · obtain ⟨r2, hr2, hk⟩ := h3 x h4
            refine ⟨r2, ?_, hk⟩
            rw [hstep store, if_pos hc]
            exact hr2
      · obtain ⟨tl, h1, h2, h3⟩ := ih (store ++ [r])
        refine ⟨r :: tl, ?_, ?_, ?_⟩
        · rw [hstep store, if_neg hc, h1, List.append_assoc]
          rfl
        · intro x hx
          rcases List.mem_cons.mp hx with h4 | h4
          · subst h4; exact List.mem_cons_self _ _
          · exact List.mem_cons_of_mem _ (h2 x h4)
        · intro x hx
          rcases List.mem_cons.mp hx with h4 | h4
          · subst h4
            refine ⟨x, ?_, rfl⟩
            rw [hstep store, if_neg hc, h1]
            exact List.mem_append_left _ (List.mem_append_right _ (List.mem_singleton.mpr rfl))
          · obtain ⟨r2, hr2, hk⟩ := h3 x h4
            refine ⟨r2, ?_, hk⟩
            rw [hstep store, if_neg hc]
            exact hr2

theorem insert_rows_snd (store : Store) (rows : List ExchangeRateRow) :
    (insert_rows store rows).2 = rows.length := rfl

theorem insert_rows_nil (store : Store) : insert_rows store [] = (store, 0) := rfl

theorem covDates_append (a b : Store) (c : String) :
    covDates (a ++ b) c = covDates a c ++ covDates b c := by
  simp [covDates, List.filter_append]

theorem mem_covDates {store : Store} {r2 : ExchangeRateRow} {ccy : String}
    (h : r2 ∈ store) (hb : r2.base_currency = ccy) (hq : r2.quote_currency = "USD") :
    r2.rate_date ∈ covDates store ccy := by
  refine List.mem_map.mpr ⟨r2, List.mem_filter.mpr ⟨h, ?_⟩, rfl⟩
  simp [hb, hq]

theorem range_none_iff {store : Store} {ccy : String} :
    get_rate_date_range store ccy = none ↔ covDates store ccy = [] := by
  rw [get_rate_date_range]
  cases covDates store ccy <;> simp

theorem range_some_of_ne {store : Store} {ccy : String} (h : covDates store ccy ≠ []) :
    ∃ lo hi, get_rate_date_range store ccy = some ⟨lo, hi⟩ := by
  rw [get_rate_date_range]
  cases hcv : covDates store ccy with
  | nil => exact absurd hcv h
  | cons x xs => exact ⟨_, _, rfl⟩

theorem range_spec {store : Store} {ccy : String} {lo hi : Date}
    (h : get_rate_date_range store ccy = some ⟨lo, hi⟩) :
    lo ∈ covDates store ccy ∧ hi ∈ covDates store ccy ∧
      ∀ d ∈ covDates store ccy, lo ≤ d ∧ d ≤ hi := by
  rw [get_rate_date_range] at h
  cases hcv : covDates store ccy with
  | nil => rw [hcv] at h; exact absurd h (by simp)
  | cons x xs =>
      rw [hcv] at h
      have hlo : List.foldl min x xs = lo := by
        have := congrArg (fun o => (o.map DateRange.min_date).getD 0) h
        simpa using this
      have hhi : List.foldl max x xs = hi := by
        have := congrArg (fun o => (o.map DateRange.max_date).getD 0) h
        simpa using this
      refine ⟨hlo ▸ foldl_min_mem xs x, hhi ▸ foldl_max_mem xs x, ?_⟩
      intro d hd
      exact ⟨hlo ▸ foldl_min_le xs x d hd, hhi ▸ foldl_max_le xs x d hd⟩

theorem runSingle_emptyRecs {ρ : Type} (ccy : String)
    (convert : List ρ → Except String (List ExchangeRateRow))
    (store : Store) (floor today : Date) (fetch : Date → Date → List ρ)
    (h1 : ¬today < planStart (get_rate_date_range store ccy) floor)
    (h2 : (fetch (planStart (get_rate_date_range store ccy) floor) today).isEmpty = true) :
    runSingle ccy convert store floor today fetch =
      (store, .ok ⟨0, emptyLatest (get_rate_date_range store ccy) today⟩) := by
  unfold runSingle
  rw [if_neg h1, if_pos h2]

theorem runSingle_convError {ρ : Type} (ccy : String)
    (convert : List ρ → Except String (List ExchangeRateRow))
    (store : Store) (floor today : Date) (fetch : Date → Date → List ρ) (e : String)
    (h1 : ¬today < planStart (get_rate_date_range store ccy) floor)
    (h2 : ¬(fetch (planStart (get_rate_date_range store ccy) floor) today).isEmpty = true)
    (h3 : convert (fetch (planStart (get_rate_date_range store ccy) floor) today) = .error e) :
    runSingle ccy convert store floor today fetch = (store, .error e) := by
  unfold runSingle
  rw [if_neg h1, if_neg h2, h3]

theorem runSingle_convOk {ρ : Type} (ccy : String)
    (convert : List ρ → Except String (List ExchangeRateRow))
    (store : Store) (floor today : Date) (fetch : Date → Date → List ρ)
    (all_rows : List ExchangeRateRow)
    (h1 : ¬today < planStart (get_rate_date_range store ccy) floor)
    (h2 : ¬(fetch (planStart (get_rate_date_range store ccy) floor) today).isEmpty = true)
    (h3 : convert (fetch (planStart (get_rate_date_range store ccy) floor) today) =
      .ok all_rows) :
    runSingle ccy convert store floor today fetch =
      ((insert_rows store (filter_new_rows all_rows (get_rate_date_range store ccy))).1,
       .ok ⟨(insert_rows store (filter_new_rows all_rows (get_rate_date_range store ccy))).2,
            latestOf (filter_new_rows all_rows (get_rate_date_range store ccy)) today⟩) := by
  unfold runSingle
  rw [if_neg h1, if_neg h2, h3]

/-- Shape facts about the CBR converter used by the idempotence proof. -/
theorem convert_cbr_shape : ∀ recs rows, convert_cbr_to_usd recs = .ok rows →
    rows.map (·.rate_date) = recs.map (·.rate_date) ∧
    ∀ r ∈ rows, r.base_currency = "RUB" ∧ r.quote_currency = "USD" := by
  intro recs
  induction recs with
  | nil => intro rows h; cases h; exact ⟨rfl, by simp⟩
  | cons rec rest ih =>
      intro rows h
      rw [convert_cbr_to_usd] at h
      by_cases hv : rec.value = 0
      · rw [if_pos hv] at h; exact absurd h (by simp)
      · rw [if_neg hv] at h
        cases hr : convert_cbr_to_usd rest with
        | error e => rw [hr] at h; exact absurd h (by simp)
        | ok rows2 =>
            rw [hr] at h
            cases h
            obtain ⟨ih1, ih2⟩ := ih rows2 hr
            refine ⟨by simp [ih1], ?_⟩
            intro r hr2
            rcases List.mem_cons.mp hr2 with h1 | h1
            · subst h1; exact ⟨rfl, rfl⟩
            · exact ih2 r h1

/-- Shape facts about the NBS parse-and-convert phase. -/
theorem nbs_parse_convert_shape : ∀ recs rows, nbs_parse_convert recs = .ok rows →
    rows.map (·.rate_date) = recs.map (·.rate_date) ∧
    ∀ r ∈ rows, r.base_currency = "RSD" ∧ r.quote_currency = "USD" := by
  intro recs rows h
  rw [nbs_parse_convert] at h
  cases hz : nbs_zero_check recs with
  | error e => rw [hz] at h; exact absurd h (by simp)
  | ok u =>
      rw [hz] at h
      cases h
      constructor
      · simp [convert_nbs_to_usd]
      · intro r hr
        obtain ⟨rec, _, hp⟩ := List.mem_map.mp hr
        subst hp
        exact ⟨rfl, rfl⟩

theorem filter_new_rows_sub (all : List ExchangeRateRow) (rng : Option DateRange) :
    ∀ r ∈ filter_new_rows all rng, r ∈ all := by
  intro r h
  cases rng with
  | none => exact h
  | some rng0 => exact (List.mem_filter.mp h).1

theorem filter_new_rows_mem_or (all : List ExchangeRateRow) (rng : Option DateRange)
    (r : ExchangeRateRow) (h : r ∈ all) :
    r ∈ filter_new_rows all rng ∨
      ∃ rng0, rng = some rng0 ∧ rng0.min_date ≤ r.rate_date ∧ r.rate_date ≤ rng0.max_date := by
  cases rng with
  | none => exact Or.inl h
  | some rng0 =>
      by_cases hp : (decide (r.rate_date < rng0.min_date) ||
          decide (rng0.max_date < r.rate_date)) = true
      · exact Or.inl (List.mem_filter.mpr ⟨h, hp⟩)
      · simp only [Bool.or_eq_true, decide_eq_true_eq, not_or, not_lt] at hp
        exact Or.inr ⟨rng0, rfl, hp.1, hp.2⟩

theorem windowFetch_mem {ρ : Type} {D : List ρ} {rdate : ρ → Date} {s e : Date} {rec : ρ}
    (h : rec ∈ windowFetch D rdate s e) : rec ∈ D ∧ s ≤ rdate rec ∧ rdate rec ≤ e := by
  have h2 := List.mem_filter.mp h
  have h3 := h2.2
  simp only [Bool.and_eq_true, decide_eq_true_eq] at h3
  exact ⟨h2.1, h3.1, h3.2⟩

/-- Idempotence of the single-currency pipeline: with responses drawn
unchanged from a fixed dataset window and coverage re-read from the store,
a second run inserts nothing and leaves the store unchanged. -/
theorem runSingle_idem {ρ : Type} (ccy : String)
    (convert : List ρ → Except String (List ExchangeRateRow)) (rdate : ρ → Date)
    (hconv : ∀ recs rows, convert recs = .ok rows →
      rows.map (·.rate_date) = recs.map rdate ∧
      ∀ r ∈ rows, r.base_currency = ccy ∧ r.quote_currency = "USD")
    (store : Store) (floor today : Date) (D : List ρ) :
    ∀ S1 r1, runSingle ccy convert store floor today (windowFetch D rdate) = (S1, r1) →
      (runSingle ccy convert S1 floor today (windowFetch D rdate)).1 = S1 ∧
      ∀ res, (runSingle ccy convert S1 floor today (windowFetch D rdate)).2 = .ok res →
        res.inserted = 0 := by
  intro S1 r1 hrun1
  set f := windowFetch D rdate with hf
  by_cases h1 : today < planStart (get_rate_date_range store ccy) floor
  · rw [runSingle_upToDate ccy convert store floor today f h1] at hrun1
    injection hrun1 with hS hr
    subst hS
    rw [runSingle_upToDate ccy convert store floor today f h1]
    exact ⟨rfl, fun res h => by cases h; rfl⟩
  · by_cases h2 : (f (planStart (get_rate_date_range store ccy) floor) today).isEmpty = true
    · rw [runSingle_emptyRecs ccy convert store floor today f h1 h2] at hrun1
      injection hrun1 with hS hr
      subst hS
      rw [runSingle_emptyRecs ccy convert store floor today f h1 h2]
      exact ⟨rfl, fun res h => by cases h; rfl⟩
    · cases hcv : convert (f (planStart (get_rate_date_range store ccy) floor) today) with
      | error e =>
          rw [runSingle_convError ccy convert store floor today f e h1 h2 hcv] at hrun1
          injection hrun1 with hS hr
          subst hS
          rw [runSingle_convError ccy convert store floor today f e h1 h2 hcv]
          exact ⟨rfl, fun res h => by exact absurd h (by simp)⟩
      | ok all1 =>
          rw [runSingle_convOk ccy convert store floor today f all1 h1 h2 hcv] at hrun1
          injection hrun1 with hS hr
          obtain ⟨hdates, hwf⟩ := hconv _ _ hcv
          obtain ⟨tl, hS1app, htl, hkeys⟩ := insert_rows_spec
            (filter_new_rows all1 (get_rate_date_range store ccy)) store
          rw [hS] at hS1app hkeys
          -- dates of fetched records lie inside the run-1 window
          have hrecne : f (planStart (get_rate_date_range store ccy) floor) today ≠ [] := by
            intro hnil
            rw [hnil] at h2
            exact h2 rfl
          -- every kept row has its date in the new coverage list
          have hcovmem : ∀ r ∈ filter_new_rows all1 (get_rate_date_range store ccy),
              r.rate_date ∈ covDates S1 ccy := by
            intro r hrm
            obtain ⟨r2, hr2S, hkeq⟩ := hkeys r hrm
            have hfields := hwf r (filter_new_rows_sub _ _ r hrm)
            have hb2 : r2.base_currency = r.base_currency := by
              have := congrArg (fun k => k.1) hkeq
              simpa [rowKey] using this
            have hq2 : r2.quote_currency = r.quote_currency := by
              have := congrArg (fun k => k.2.1) hkeq
              simpa [rowKey] using this
            have hd2 : r2.rate_date = r.rate_date := by
              have := congrArg (fun k => k.2.2) hkeq
              simpa [rowKey] using this
            rw [← hd2]
            exact mem_covDates hr2S (hb2.trans hfields.1) (hq2.trans hfields.2)
          have hcovne : covDates S1 ccy ≠ [] := by
            cases hcov0 : get_rate_date_range store ccy with
            | some rng0 =>
                apply List.ne_nil_of_mem (a := rng0.min_date)
                rw [hS1app, covDates_append]
                exact List.mem_append_left _ (range_spec hcov0).1
            | none =>
                have hall1ne : all1 ≠ [] := by
                  intro hnil
                  apply hrecne
                  have hlen := congrArg List.length hdates
                  simp only [List.length_map] at hlen
                  rw [hnil] at hlen
                  exact List.length_eq_zero.mp hlen.symm
                obtain ⟨r0, hr0⟩ := List.exists_mem_of_ne_nil _ hall1ne
                have hr0new : r0 ∈ filter_new_rows all1 (get_rate_date_range store ccy) := by
                  rw [hcov0]
                  exact hr0
                exact List.ne_nil_of_mem (hcovmem r0 hr0new)
          obtain ⟨lo1, hi1, hcov1⟩ := range_some_of_ne hcovne
          have hspec1 := range_spec hcov1
          -- every converted row's date lies inside the new coverage range
          have star : ∀ r ∈ all1, lo1 ≤ r.rate_date ∧ r.rate_date ≤ hi1 := by
            intro r hr
            rcases filter_new_rows_mem_or all1 (get_rate_date_range store ccy) r hr with
              hm | ⟨rng0, hcov0, hblo, hbhi⟩
            · exact hspec1.2.2 _ (hcovmem r hm)
            · have hminS1 : rng0.min_date ∈ covDates S1 ccy := by
                rw [hS1app, covDates_append]
                exact List.mem_append_left _ (range_spec hcov0).1
              have hmaxS1 : rng0.max_date ∈ covDates S1 ccy := by
                rw [hS1app, covDates_append]
                exact List.mem_append_left _ (range_spec hcov0).2.1
              exact ⟨le_trans (hspec1.2.2 _ hminS1).1 hblo,
                le_trans hbhi (hspec1.2.2 _ hmaxS1).2⟩
          have recstar : ∀ rec ∈ f (planStart (get_rate_date_range store ccy) floor) today,
              lo1 ≤ rdate rec ∧ rdate rec ≤ hi1 := by
            intro rec hrec
            have hmem : rdate rec ∈ all1.map (·.rate_date) := by
              rw [hdates]
              exact List.mem_map_of_mem rdate hrec
            obtain ⟨r, hrmem, hrd⟩ := List.mem_map.mp hmem
            rw [← hrd]
            exact star r hrmem
          by_cases hb : lo1 > floor
          · -- run 2 backfills to the same window as run 1
            have hstart2 : planStart (get_rate_date_range S1 ccy) floor = floor := by
              rw [hcov1, planStart, if_pos hb]
            have hstart1eq : planStart (get_rate_date_range store ccy) floor = floor := by
              cases hcov0 : get_rate_date_range store ccy with
              | none => rfl
              | some rng0 =>
                  have hminS1 : rng0.min_date ∈ covDates S1 ccy := by
                    rw [hS1app, covDates_append]
                    exact List.mem_append_left _ (range_spec hcov0).1
                  have : floor < rng0.min_date :=
                    lt_of_lt_of_le hb (hspec1.2.2 _ hminS1).1
                  rw [planStart, if_pos this]
            have hnew2 : filter_new_rows all1 (get_rate_date_range S1 ccy) = [] := by
              rw [hcov1, filter_new_rows]
              apply List.filter_eq_nil.mpr
              intro r hr
              have hs := star r hr
              simp only [Bool.or_eq_true, decide_eq_true_eq, not_or, not_lt]
              exact ⟨hs.1, hs.2⟩
            have hrun2 : runSingle ccy convert S1 floor today f =
                (S1, .ok ⟨0, latestOf [] today⟩) := by
              have h1' : ¬today < planStart (get_rate_date_range S1 ccy) floor := by
                rw [hstart2, ← hstart1eq]
                exact h1
              have h2' : ¬(f (planStart (get_rate_date_range S1 ccy) floor) today).isEmpty
                  = true := by
                rw [hstart2, ← hstart1eq]
                exact h2
              have hcv' : convert (f (planStart (get_rate_date_range S1 ccy) floor) today) =
                  .ok all1 := by
                rw [hstart2, ← hstart1eq]
                exact hcv
              rw [runSingle_convOk ccy convert S1 floor today f all1 h1' h2' hcv', hnew2,
                insert_rows_nil]
            rw [hrun2]
            exact ⟨rfl, fun res h => by cases h; rfl⟩
          · -- run 2 forward-fills from the new covered maximum
            have hstart2 : planStart (get_rate_date_range S1 ccy) floor = hi1 + 1 := by
              rw [hcov1, planStart, if_neg hb]
            by_cases h3 : today < hi1 + 1
            · have hrun2 := runSingle_upToDate ccy convert S1 floor today f
                (by rw [hstart2]; exact h3)
              rw [hrun2]
              exact ⟨rfl, fun res h => by cases h; rfl⟩
            · have hlo1hi1 : lo1 ≤ hi1 := (hspec1.2.2 _ hspec1.1).2
              have hrecs2 : f (hi1 + 1) today = [] := by
                rw [hf]
                apply List.filter_eq_nil.mpr
                intro rec hrecD hp
                simp only [Bool.and_eq_true, decide_eq_true_eq] at hp
                have hge : hi1 + 1 ≤ rdate rec := hp.1
                have hle : rdate rec ≤ today := hp.2
                have hstart1le : planStart (get_rate_date_range store ccy) floor ≤ rdate rec := by
                  cases hcov0 : get_rate_date_range store ccy with
                  | none =>
                      -- the floor start is below the new minimum, which comes from run 1
                      have hemp : covDates store ccy = [] := range_none_iff.mp hcov0
                      have hlo1mem : lo1 ∈ covDates (store ++ tl) ccy := by
                        rw [← hS1app]
                        exact hspec1.1
                      rw [covDates_append, hemp, List.nil_append] at hlo1mem
                      obtain ⟨r2, hr2f, hr2d⟩ := List.mem_map.mp hlo1mem
                      have hr2tl : r2 ∈ tl := (List.mem_filter.mp hr2f).1
                      have hr2all : r2 ∈ all1 :=
                        filter_new_rows_sub _ _ r2 (htl r2 hr2tl)
                      have hmem2 : r2.rate_date ∈
                          (f (planStart (get_rate_date_range store ccy) floor) today).map
                            rdate := by
                        rw [← hdates]
                        exact List.mem_map_of_mem _ hr2all
                      obtain ⟨rec2, hrec2, hrec2d⟩ := List.mem_map.mp hmem2
                      have hlb := (windowFetch_mem hrec2).2.1
                      rw [hrec2d, hr2d] at hlb
                      simp only [hcov0, planStart] at hlb ⊢
                      linarith
                  | some rng0 =>
                      have hmaxS1 : rng0.max_date ∈ covDates S1 ccy := by
                        rw [hS1app, covDates_append]
                        exact List.mem_append_left _ (range_spec hcov0).2.1
                      have h8 : rng0.max_date ≤ hi1 := (hspec1.2.2 _ hmaxS1).2
                      have h9 : rng0.min_date ≤ rng0.max_date :=
                        ((range_spec hcov0).2.2 _ (range_spec hcov0).1).2
                      rw [planStart]
                      by_cases hbf : rng0.min_date > floor
                      · rw [if_pos hbf]
                        linarith
                      · rw [if_neg hbf]
                        linarith
                have hrecmem : rec ∈ f (planStart (get_rate_date_range store ccy) floor)
                    today := by
                  rw [hf]
                  refine List.mem_filter.mpr ⟨hrecD, ?_⟩
                  rw [Bool.and_eq_true, decide_eq_true_eq, decide_eq_true_eq]
                  exact ⟨hstart1le, hle⟩
                have := (recstar rec hrecmem).2
                linarith
              have hrun2 := runSingle_emptyRecs ccy convert S1 floor today f
                (by rw [hstart2]; exact h3) (by rw [hstart2, hrecs2]; rfl)
              rw [hrun2]
              exact ⟨rfl, fun res h => by cases h; rfl⟩

/-- C2 (corrected).  For the single-currency pipelines (CBR and NBS), with
the provider answering every request from one fixed dataset restricted to
the requested window, and demand floor and today unchanged, running `run`
twice leaves the store of the first run unchanged and the second run reports
zero inserted rows.  (The ECB batched pipeline does not satisfy this; see
the counterexample.) -/
theorem c2_single_currency_idempotent :
    (∀ (store : Store) (floor today : Date) (D : List CBRRecord),
      (cbr_run (cbr_run store floor today (windowFetch D CBRRecord.rate_date)).1
          floor today (windowFetch D CBRRecord.rate_date)).1 =
        (cbr_run store floor today (windowFetch D CBRRecord.rate_date)).1 ∧
      ∀ res, (cbr_run (cbr_run store floor today (windowFetch D CBRRecord.rate_date)).1
          floor today (windowFetch D CBRRecord.rate_date)).2 = .ok res → res.inserted = 0) ∧
    (∀ (store : Store) (floor today : Date) (D : List NBSRecord),
      (nbs_run (nbs_run store floor today (windowFetch D NBSRecord.rate_date)).1
          floor today (windowFetch D NBSRecord.rate_date)).1 =
        (nbs_run store floor today (windowFetch D NBSRecord.rate_date)).1 ∧
      ∀ res, (nbs_run (nbs_run store floor today (windowFetch D NBSRecord.rate_date)).1
          floor today (windowFetch D NBSRecord.rate_date)).2 = .ok res → res.inserted = 0) := by
  constructor
  · intro store floor today D
    exact runSingle_idem "RUB" convert_cbr_to_usd CBRRecord.rate_date
      convert_cbr_shape store floor today D _ _ rfl
  · intro store floor today D
    exact runSingle_idem "RSD" nbs_parse_convert NBSRecord.rate_date
      nbs_parse_convert_shape store floor today D _ _ rfl

/-- Witness for C2: a one-record dataset on an empty store inserts once,
then the second run reports zero. -/
theorem c2_single_currency_idempotent_witness :
    (cbr_run (cbr_run [] 0 0 (windowFetch [⟨0, 1, 2⟩] CBRRecord.rate_date)).1 0 0
        (windowFetch [⟨0, 1, 2⟩] CBRRecord.rate_date)).1 =
      (cbr_run [] 0 0 (windowFetch [⟨0, 1, 2⟩] CBRRecord.rate_date)).1 ∧
    (⟨0, 0⟩ : SingleResult).inserted = 0 :=
  ⟨(c2_single_currency_idempotent.1 [] 0 0 [⟨0, 1, 2⟩]).1,
   (c2_single_currency_idempotent.1 [] 0 0 [⟨0, 1, 2⟩]).2 ⟨0, 0⟩ (by rfl)⟩

/-- Counterexample to C2 as stated for the ECB batched pipeline, with a
consistent provider (a fixed dataset windowed by request) and unchanged
demand floor (2024-06-01) and today (2024-06-30).  GBP has stale coverage
(one row in 2020); TRY has none, so run 1 backfills from the floor and
inserts TRY@2024-06-01.  Run 2 then forward-fills from the minimum covered
maximum — GBP's 2020-01-05 — fetching a window run 1 never requested, which
contains an EUR/USD quote at 2021-05-05 outside EUR's coverage: the second
run inserts one row instead of zero. -/
theorem c2_ecb_second_run_inserts :
    (ecb_run
        (ecb_run
          [⟨"GBP", "USD", "2020-01-05", 1⟩, ⟨"EUR", "USD", "2024-06-01", 1⟩,
           ⟨"EUR", "USD", "2024-06-20", 1⟩, ⟨"BGN", "USD", "2024-06-01", 1⟩,
           ⟨"BGN", "USD", "2024-06-20", 1⟩]
          (daysFromCivil 2024 6 1) (daysFromCivil 2024 6 30)
          (ecbWindowFetch [⟨"USD", "2024-06-01", (27:ℚ)/25⟩, ⟨"TRY", "2024-06-01", (35:ℚ)⟩,
            ⟨"USD", "2021-05-05", (6:ℚ)/5⟩])).1
        (daysFromCivil 2024 6 1) (daysFromCivil 2024 6 30)
        (ecbWindowFetch [⟨"USD", "2024-06-01", (27:ℚ)/25⟩, ⟨"TRY", "2024-06-01", (35:ℚ)⟩,
          ⟨"USD", "2021-05-05", (6:ℚ)/5⟩])).2 =
      Except.ok ⟨1, "2021-05-05", ["BGN", "GBP"]⟩ := rfl
